import Mathlib

/-!
Verification development for the kupferbootstrap build core.

Each Python function under scrutiny is embedded shallowly as an executable
Lean definition.  Strings are modelled as `List Char`, Python `set`s as
lists considered up to membership (insertion deduplicates), machine integers
as `Nat` (all the numbers involved are non-negative counters), and raised
exceptions as `Except`/`Option` error values.
-/

set_option maxHeartbeats 1000000

namespace Kupfer

/-! ### Embedding of src/distro/version.py -/

/-- Result type of the version comparison (class VerComp(IntEnum)):
RIGHT_NEWER = -1, EQUAL = 0, RIGHT_OLDER = 1. -/
inductive VerComp where
  | RIGHT_NEWER
  | EQUAL
  | RIGHT_OLDER
deriving DecidableEq, Repr

/-- Exceptional outcomes of the version-comparison functions.  `indexError`
and `assertFail` model a raised IndexError / AssertionError; `parseError`
models the assertions in `parseEVR`; `fuelOut` is the artefact of modelling
the unbounded `while` loop with fuel (never hit on terminating runs). -/
inductive VErr where
  | parseError
  | indexError
  | assertFail
  | fuelOut
deriving DecidableEq, Repr

/-- Python `s.split(c, maxsplit=1)` when `c in s`: split at the first
occurrence, `none` when the character does not occur. -/
def splitFirst (c : Char) : List Char → Option (List Char × List Char)
  | [] => none
  | x :: xs =>
    if x = c then some ([], xs)
    else (splitFirst c xs).map (fun p => (x :: p.1, p.2))

/-- Python `s.rsplit(c, maxsplit=1)` when `c in s`: split at the last
occurrence. -/
def splitLast (c : Char) (l : List Char) : Option (List Char × List Char) :=
  (splitFirst c l.reverse).map (fun p => (p.2.reverse, p.1.reverse))

/-- Python `s.split(c)` (no maxsplit). -/
def splitAllAux (c : Char) (acc : List Char) : List Char → List (List Char)
  | [] => [acc.reverse]
  | x :: xs =>
    if x = c then acc.reverse :: splitAllAux c [] xs
    else splitAllAux c (x :: acc) xs

def splitAll (c : Char) (l : List Char) : List (List Char) := splitAllAux c [] l

/-- Python `s.isdigit()` (equivalently `s.isnumeric()` on the ASCII version
strings involved): non-empty and all digits. -/
def isDigits (l : List Char) : Bool := !l.isEmpty && l.all Char.isDigit

/-- Python `int(s)` on a digit string. -/
def natOfDigits (l : List Char) : Nat :=
  l.foldl (fun n c => n * 10 + (c.toNat - '0'.toNat)) 0

/-- Parsed `[Epoch:]Version[-Release]`, mirroring `class EVR(NamedTuple)`. -/
structure EVR where
  epoch : Nat
  version : List Char
  release : Nat
  subrelease : Nat
deriving DecidableEq, Repr

/-- The `Version[-Release]` part of `parseEVR` (source lines 35-47): the
release defaults to 1 and the subrelease to 0; a non-numeric release must be
`major.minor` (the `assert`s are modelled by `none`). -/
def parseVR (epoch : Nat) (rest : List Char) : Option EVR :=
  match splitLast '-' rest with
  | none => some ⟨epoch, rest, 1, 0⟩
  | some (version, rel) =>
    if isDigits rel then some ⟨epoch, version, natOfDigits rel, 0⟩
    else
      match splitAll '.' rel with
      | [r1, r2] =>
        if isDigits r1 && isDigits r2 then
          some ⟨epoch, version, natOfDigits r1, natOfDigits r2⟩
        else none
      | _ => none

/-- `parseEVR` (source lines 22-47).  A prefix before the first `:` counts as
the epoch only when it is all digits; otherwise epoch stays 0 and the prefix
is dropped together with the colon. -/
def parseEVR (input : List Char) : Option EVR :=
  match splitFirst ':' input with
  | none => parseVR 0 input
  | some (sp, rest) => parseVR (if isDigits sp then natOfDigits sp else 0) rest

/-- `int_compare` (source lines 50-55). -/
def int_compare (a b : Nat) : VerComp :=
  if b > a then .RIGHT_NEWER else if a > b then .RIGHT_OLDER else .EQUAL

/-- Helper for `walkWhile`: scan the given suffix, counting from `i`. -/
def walkWhileAux (p : Char → Bool) : List Char → Nat → Nat
  | [], i => i
  | ch :: rest, i => if p ch then walkWhileAux p rest (i + 1) else i

/-- First index `j ≥ i` at which `p` fails (or the length), used for the
index-walking `while` loops of `rpm_version_compare`. -/
def walkWhile (p : Char → Bool) (l : List Char) (i : Nat) : Nat :=
  walkWhileAux p (l.drop i) i

/-- Python slice `l[i:j]`. -/
def sliceGet (l : List Char) (i j : Nat) : List Char := (l.drop i).take (j - i)

/-- Python string `<` (lexicographic by code point, a proper prefix is
smaller). -/
def lexLt : List Char → List Char → Bool
  | [], [] => false
  | [], _ :: _ => true
  | _ :: _, [] => false
  | x :: xs, y :: ys => if x = y then lexLt xs ys else decide (x < y)

/-- The final lines 148-161 of `rpm_version_compare`.  Note the evaluation
order of line 158: `a[one].isalpha()` is evaluated unconditionally, so when
`one` has run off the end of `a` (and `b` still has characters left) the
source raises an IndexError instead of reaching the commented-upon
"one is empty" case. -/
def rpmFinal (a b : List Char) (one two : Nat) : Except VErr VerComp :=
  if h1 : one < a.length then
    -- `valid_one()` holds, so the second disjunct of line 158 is `False`
    if (a.get ⟨one, h1⟩).isAlpha then .ok .RIGHT_NEWER else .ok .RIGHT_OLDER
  else if two < b.length then .error .indexError
  else .ok .EQUAL

/-- The segment-comparison `while` loop of `rpm_version_compare` (source
lines 85-146), with the loop counter made explicit as fuel.  Note line
132-133 of the source: `one_cut.lstrip('0')` / `two_cut.lstrip('0')` compute
stripped copies but discard them, so the length and lexicographic
comparisons below operate on the segments with leading zeros intact. -/
def rpmLoop (a b : List Char) : Nat → Nat → Nat → Nat → Nat → Except VErr VerComp
  | 0, _, _, _, _ => .error .fuelOut
  | fuel + 1, one0, two0, offset1, offset2 =>
    if one0 < a.length then
      if two0 < b.length then
        let one := walkWhile (fun ch => !ch.isAlphanum) a one0
        let two := walkWhile (fun ch => !ch.isAlphanum) b two0
        if hv : one < a.length ∧ two < b.length then
          if one - offset1 ≠ two - offset2 then
            .ok (if one - offset1 < two - offset2 then .RIGHT_NEWER else .RIGHT_OLDER)
          else
            let isNum := (a.get ⟨one, hv.1⟩).isDigit
            let sf := if isNum then Char.isDigit else Char.isAlpha
            let off1 := walkWhile sf a one
            let off2 := walkWhile sf b two
            if off1 = one then .error .assertFail
            else
              let oneCut := sliceGet a one off1
              let twoCut := sliceGet b two off2
              if off2 = two then .ok (if isNum then .RIGHT_OLDER else .RIGHT_NEWER)
              else if isNum && oneCut.length ≠ twoCut.length then
                .ok (if twoCut.length < oneCut.length then .RIGHT_OLDER else .RIGHT_NEWER)
              else if lexLt oneCut twoCut then .ok .RIGHT_NEWER
              else if lexLt twoCut oneCut then .ok .RIGHT_OLDER
              else rpmLoop a b fuel off1 off2 off1 off2
        else rpmFinal a b one two
      else rpmFinal a b one0 two0
    else rpmFinal a b one0 two0

/-- `rpm_version_compare` (source lines 58-161) on the string case; the
initial `a == b` short-circuit is the line 60 check. -/
def rpm_version_compare (a b : List Char) : Except VErr VerComp :=
  if a = b then .ok .EQUAL
  else rpmLoop a b (a.length + b.length + 2) 0 0 0 0

/-- `compare_package_versions` (source lines 164-176): parse both versions
and compare the four EVR fields in order, returning the first non-EQUAL
result.  On integer fields `rpm_version_compare` reduces to `int_compare`
(its `a == b` check agrees with the EQUAL case of `int_compare`). -/
def compare_package_versions (va vb : List Char) : Except VErr VerComp :=
  match parseEVR va, parseEVR vb with
  | some pa, some pb =>
    let r1 := int_compare pa.epoch pb.epoch
    if r1 ≠ .EQUAL then .ok r1
    else
      match rpm_version_compare pa.version pb.version with
      | .error e => .error e
      | .ok r2 =>
        if r2 ≠ .EQUAL then .ok r2
        else
          let r3 := int_compare pa.release pb.release
          if r3 ≠ .EQUAL then .ok r3
          else
            let r4 := int_compare pa.subrelease pb.subrelease
            if r4 ≠ .EQUAL then .ok r4 else .ok .EQUAL
  | _, _ => .error .parseError

/-! ### Helper lemmas about the splitting functions -/

theorem splitFirst_eq_some (c : Char) :
    ∀ l pre rest, splitFirst c l = some (pre, rest) → l = pre ++ c :: rest := by
  intro l
  induction l with
  | nil => intro pre rest h; simp [splitFirst] at h
  | cons x xs ih =>
    intro pre rest h
    by_cases hx : x = c
    · subst hx
      simp [splitFirst] at h
      simp [← h.1, ← h.2]
    · simp only [splitFirst, if_neg hx, Option.map_eq_some'] at h
      obtain ⟨⟨p1, p2⟩, hp, heq⟩ := h
      simp only [Prod.mk.injEq] at heq
      rw [← heq.1, ← heq.2]
      simp [ih _ _ hp]

theorem splitFirst_eq_none (c : Char) :
    ∀ l, c ∉ l → splitFirst c l = none := by
  intro l
  induction l with
  | nil => intro _; rfl
  | cons x xs ih =>
    intro h
    have hx : ¬x = c := fun he => h (he ▸ List.mem_cons_self x xs)
    have hxs : c ∉ xs := fun hm => h (List.mem_cons_of_mem x hm)
    simp [splitFirst, hx, ih hxs]

theorem splitLast_eq_none (c : Char) (l : List Char) (h : c ∉ l) :
    splitLast c l = none := by
  have : c ∉ l.reverse := by simpa using h
  simp [splitLast, splitFirst_eq_none c l.reverse this]

/-! ### Claims C3, C4, C10 -/

/-- C3: the claim states `compare_package_versions` is total on well-formed
version strings (naming the pair `'1.0'` vs `'1.0a'` explicitly) and induces
a total order.  The code is wrong: at that very pair the final comparison of
`rpm_version_compare` evaluates `a[one]` with `one == len(a)` (source line
158) and raises an IndexError, while the swapped pair returns normally, so
the function is partial and `cmp(a,b) = -cmp(b,a)` cannot hold either.
This theorem evaluates the embedding at the failing input. -/
theorem c3_compare_package_versions_raises_on_prefix_pair :
    compare_package_versions "1.0".toList "1.0a".toList = .error .indexError ∧
    compare_package_versions "1.0a".toList "1.0".toList = .ok .RIGHT_NEWER ∧
    rpm_version_compare "1.0".toList "1.0a".toList = .error .indexError := by
  refine ⟨rfl, rfl, rfl⟩

/-- C4: the claim states numeric segments are compared after stripping
leading zeros, so `'1.007'` and `'1.7'` compare equal.  The code is wrong:
source lines 132-133 call `one_cut.lstrip('0')` / `two_cut.lstrip('0')` but
discard the results, so the length comparison sees `"007"` (3 digits)
against `"7"` (1 digit) and declares `1.007` newer.  This theorem evaluates
the embedding at the failing input. -/
theorem c4_leading_zeros_kept :
    rpm_version_compare "1.007".toList "1.7".toList = .ok .RIGHT_OLDER ∧
    compare_package_versions "1.007".toList "1.7".toList = .ok .RIGHT_OLDER := by
  refine ⟨rfl, rfl⟩

/-- C10: `parseEVR` defaults the release to 1 and the subrelease to 0 when
there is no `-release` suffix, hence `'1.0'` and `'1.0-1'` compare equal;
and when the text before a `:` is not all digits the epoch stays 0 and that
prefix is dropped, e.g. `'abc:1.0'` parses exactly like `'1.0'`. -/
theorem c10_parseEVR_defaults :
    (∀ s : List Char, '-' ∉ s → ∃ e v, parseEVR s = some ⟨e, v, 1, 0⟩) ∧
    compare_package_versions "1.0".toList "1.0-1".toList = .ok .EQUAL ∧
    parseEVR "abc:1.0".toList = parseEVR "1.0".toList ∧
    (∀ s pre rest : List Char, splitFirst ':' s = some (pre, rest) →
      ¬ isDigits pre → parseEVR s = parseVR 0 rest) := by
  refine ⟨?_, rfl, rfl, ?_⟩
  · intro s hs
    have hnone : splitLast '-' s = none := splitLast_eq_none _ _ hs
    unfold parseEVR
    cases hsp : splitFirst ':' s with
    | none => exact ⟨0, s, by simp [parseVR, hnone]⟩
    | some p =>
      obtain ⟨pre, rest⟩ := p
      have hseq := splitFirst_eq_some ':' s pre rest hsp
      have hrest : '-' ∉ rest := by
        intro hm
        exact hs (hseq ▸ List.mem_append_right _ (List.mem_cons_of_mem _ hm))
      have hrnone : splitLast '-' rest = none := splitLast_eq_none _ _ hrest
      exact ⟨if isDigits pre then natOfDigits pre else 0, rest, by simp [parseVR, hrnone]⟩
  · intro s pre rest hsp hd
    unfold parseEVR
    rw [hsp]
    simp [hd]

/-- Witness for C10: the theorem applied at the concrete input `'1.0'`. -/
theorem c10_witness : ∃ e v, parseEVR "1.0".toList = some ⟨e, v, 1, 0⟩ :=
  c10_parseEVR_defaults.1 _ (by decide)

/-! ### Embedding of generate_dependency_chain
(src/packages/build.py lines 91-197)

Recipes are compared by object identity in the source (`Pkgbuild` defines no
`__eq__`); structural equality on `Pkg` models this, all concrete inputs
using structurally distinct recipes.  Python `set`s keep no order; they are
modelled as insertion-ordered duplicate-free lists, so the embedding fixes
one iteration order. -/

structure Pkg where
  name : String
  depends : List String
  provides : List String
  replaces : List String
deriving DecidableEq, Repr

/-- `Pkgbuild.names()` (src/packages/pkgbuild.py line 207): the own name
plus the provides and replaces aliases (a set in the source; only membership
is ever used). -/
def Pkg.names (p : Pkg) : List String := p.name :: (p.provides ++ p.replaces)

abbrev PkgRepo := List (String × Pkg)

/-- Python dict lookup `package_repo[dep_name]` (keys are unique in a dict;
the first binding wins in this list model). -/
def repoLookup (repo : PkgRepo) (n : String) : Option Pkg :=
  (repo.find? (fun e => e.1 = n)).map (fun e => e.2)

/-- Python `set.add` on a list-modelled set. -/
def setAdd (l : List Pkg) (p : Pkg) : List Pkg := if p ∈ l then l else l ++ [p]

/-- `visit` (source lines 101-103): record all of the package's names as
visited (`visited` itself is only ever written in the source, so only
`visited_names` is modelled). -/
def visitNames (vis : List String) (p : Pkg) : List String := vis ++ p.names

inductive GdcErr where
  | depthLimit
  | cycleDetected
  | fuelOut
deriving DecidableEq, Repr

/-- The generator pipeline `get_dependencies`/`get_recursive_dependencies`
(source lines 112-125) consumed in DFS order: a dependency name already
visited (or absent from the index) is skipped; otherwise the target package
is visited at yield time and its own dependencies are expanded before the
remaining names, exactly as the interleaved generators do.  Fuel models the
Python call stack. -/
def visitDeps (repo : PkgRepo) : Nat → List String → List String →
    Except GdcErr (List Pkg × List String)
  | 0, _, _ => .error .fuelOut
  | _ + 1, vis, [] => .ok ([], vis)
  | fuel + 1, vis, depName :: rest =>
    if depName ∈ vis then visitDeps repo fuel vis rest
    else
      match repoLookup repo depName with
      | none => visitDeps repo fuel vis rest
      | some depPkg =>
        match visitDeps repo fuel (visitNames vis depPkg) depPkg.depends with
        | .error e => .error e
        | .ok (sub, vis2) =>
          match visitDeps repo fuel vis2 rest with
          | .error e => .error e
          | .ok (tail, vis3) => .ok (depPkg :: (sub ++ tail), vis3)

/-- The level-0 initialisation loop (source lines 129-137): each requested
package is visited and added to level 0, then all its recursive
dependencies are added to level 0 (the loop re-visits each yielded package,
a set-level no-op retained here as a duplicate-appending fold). -/
def initLevel0 (repo : PkgRepo) (fuel : Nat) :
    List Pkg → List String → List Pkg → Except GdcErr (List String × List Pkg)
  | [], vis, lvl0 => .ok (vis, lvl0)
  | package :: restBuild, vis, lvl0 =>
    match visitDeps repo fuel (visitNames vis package) package.depends with
    | .error e => .error e
    | .ok (deps, vis2) =>
      initLevel0 repo fuel restBuild (deps.foldl visitNames vis2)
        (deps.foldl setAdd (setAdd lvl0 package))

/-- The move condition of source lines 160-175: some *other* package on the
level snapshot has a dependency name among `pkg`'s names.  (The source
breaks at the first such package; the only effect per hit is the single
move, so an existence check is equivalent.) -/
def doMove (snapshot : List Pkg) (pkg : Pkg) : Bool :=
  snapshot.any (fun other => other ≠ pkg && other.depends.any (fun n => pkg.names.contains n))

structure PassState where
  cur : List Pkg
  nxt : List Pkg
  vis : List String
  modified : Bool
deriving DecidableEq, Repr

/-- The dependency-adding loop of source lines 176-184: unvisited
dependency names present in the index are added to the *current* level and
visited. -/
def addDeps (repo : PkgRepo) (st : PassState) (depName : String) : PassState :=
  if depName ∈ st.vis then st
  else
    match repoLookup repo depName with
    | none => st
    | some depPkg =>
      { st with cur := setAdd st.cur depPkg, vis := visitNames st.vis depPkg, modified := true }

/-- Processing of one subject `pkg` of the snapshot (source lines 155-184):
skipped when no longer on the current level, otherwise moved up one level
when `doMove` fires, and its dependencies are expanded in place. -/
def processPkg (repo : PkgRepo) (snapshot : List Pkg) (st : PassState) (pkg : Pkg) : PassState :=
  if pkg ∈ st.cur then
    let st1 :=
      if doMove snapshot pkg then
        { st with cur := st.cur.erase pkg, nxt := setAdd st.nxt pkg, modified := true }
      else st
    pkg.depends.foldl (addDeps repo) st1
  else st

/-- One full pass over the `level_copy` snapshot (source lines 149-184). -/
def runPass (repo : PkgRepo) (snapshot : List Pkg) (st : PassState) : PassState :=
  snapshot.foldl (processPkg repo snapshot) st

/-- Python `set` equality of two list-modelled sets. -/
def setEqPkg (a b : List Pkg) : Bool := a.all (· ∈ b) && b.all (· ∈ a)

/-- The mutable state of the `while` loop: `dep_levels` is `frozen`
(levels strictly below `level`) followed by `cur` (= `dep_levels[level]`)
and `nxt` (= `dep_levels[level+1]`); the list always has exactly `level+2`
entries in the source. -/
structure LoopState where
  frozen : List (List Pkg)
  cur : List Pkg
  nxt : List Pkg
  vis : List String
  level : Nat
  repeatCount : Nat
  lastLevel : Option (List Pkg)
deriving DecidableEq, Repr

/-- The scheduling `while` loop (source lines 144-197) including the
depth guard (`level > 100`), the unchanged-level cycle guard
(`repeat_count > 10`) and the final reverse-and-prune of the level list. -/
def gdcLoop (repo : PkgRepo) : Nat → LoopState → Except GdcErr (List (List Pkg))
  | 0, _ => .error .fuelOut
  | fuel + 1, st =>
    if st.cur.isEmpty then
      .ok (((st.frozen ++ [st.cur, st.nxt]).reverse).filter (fun lvl => !lvl.isEmpty))
    else if 100 < st.level then .error .depthLimit
    else
      let snapshot := st.cur
      let ps := runPass repo snapshot ⟨st.cur, st.nxt, st.vis, false⟩
      let eqLast :=
        match st.lastLevel with
        | none => false
        | some ll => setEqPkg ll ps.cur
      let rc := if eqLast then st.repeatCount + 1 else 0
      if 10 < rc then .error .cycleDetected
      else
        let st' : LoopState :=
          { st with
            cur := ps.cur, nxt := ps.nxt, vis := ps.vis
            repeatCount := rc, lastLevel := some ps.cur }
        if ps.modified then gdcLoop repo fuel st'
        else
          gdcLoop repo fuel
            { st' with
              frozen := st'.frozen ++ [st'.cur], cur := st'.nxt, nxt := []
              level := st'.level + 1 }

/-- `generate_dependency_chain` (source lines 91-197). -/
def generate_dependency_chain (repo : PkgRepo) (toBuild : List Pkg) (fuel : Nat) :
    Except GdcErr (List (List Pkg)) :=
  match initLevel0 repo fuel toBuild [] [] with
  | .error e => .error e
  | .ok (vis, lvl0) => gdcLoop repo fuel ⟨[], lvl0, [], vis, 0, 0, none⟩

/-- The name-based dependency relation the scheduler works with: some
dependency name of `r` is among `p`'s names. -/
def depOn (r p : Pkg) : Prop := ∃ n ∈ r.depends, n ∈ p.names

instance (r p : Pkg) : Decidable (depOn r p) := by
  unfold depOn; exact List.decidableBEx _ _

/-- Every package that can ever be placed on a level: a requested package
or a value of the index. -/
def pkgUniverse (repo : PkgRepo) (toBuild : List Pkg) : List Pkg :=
  toBuild ++ repo.map (fun e => e.2)

/-- `rank` witnesses acyclicity of the dependency relation over the
universe: dependencies get strictly larger ranks.  (A finite relation is
acyclic exactly when such a ranking exists; note a self-dependency
`depOn p p` is a cycle of length one and is excluded as well.) -/
def AcyclicRank (repo : PkgRepo) (toBuild : List Pkg) (rank : Pkg → Nat) : Prop :=
  ∀ r ∈ pkgUniverse repo toBuild, ∀ p ∈ pkgUniverse repo toBuild,
    depOn r p → rank r < rank p

instance (repo : PkgRepo) (toBuild : List Pkg) (rank : Pkg → Nat) :
    Decidable (AcyclicRank repo toBuild rank) := by
  unfold AcyclicRank
  exact List.decidableBAll _ _

/-- The index is well-formed: it maps a name only to packages carrying that
name.  (The index built by `discover_pkgbuilds` maps each package's own
name and `replaces` aliases, both contained in `names()`.) -/
def GoodRepo (repo : PkgRepo) : Prop :=
  ∀ e ∈ repo, e.1 ∈ e.2.names

instance (repo : PkgRepo) : Decidable (GoodRepo repo) := by
  unfold GoodRepo; exact List.decidableBAll _ _

/-! Concrete instances for the spec scenarios. -/

def diamondA : Pkg := ⟨"a", ["b", "c"], [], []⟩
def diamondB : Pkg := ⟨"b", ["d"], [], []⟩
def diamondC : Pkg := ⟨"c", ["d"], [], []⟩
def diamondD : Pkg := ⟨"d", [], [], []⟩

def diamondRepo : PkgRepo :=
  [("a", diamondA), ("b", diamondB), ("c", diamondC), ("d", diamondD)]

def cycleX : Pkg := ⟨"x", ["y"], [], []⟩
def cycleY : Pkg := ⟨"y", ["x"], [], []⟩

def cycleRepo : PkgRepo := [("x", cycleX), ("y", cycleY)]

/-- A recipe whose `replaces` alias shadows the name of `shadowQ`. -/
def shadowP : Pkg := ⟨"p", [], [], ["x"]⟩

def shadowQ : Pkg := ⟨"x", [], [], []⟩

def shadowR : Pkg := ⟨"r", ["x"], [], []⟩

def shadowRepo : PkgRepo := [("p", shadowP), ("x", shadowQ), ("r", shadowR)]

/-- C2: the claim (and spec) promise that the two-cycle `x→y, y→x` makes
the solver raise a dependency-cycle error after at most 10 unchanged
passes.  The code is wrong: on the very first pass each of `x` and `y` is
moved up a level because the other (still present on the `level_copy`
snapshot) depends on it, `dep_levels[0]` becomes empty, the `while` guard
fails and the function returns the bogus plan `[{x, y}]` with both cycle
members on one level — the `repeat_count > 10` guard (source line 190) is
unreachable because a pass that modifies the level always changes its
contents and an unmodified pass immediately advances the level.  This
theorem evaluates the embedding at the failing input. -/
theorem c2_cycle_guard_never_fires :
    generate_dependency_chain cycleRepo [cycleX, cycleY] 50 = .ok [[cycleX, cycleY]] := rfl

/-! ### Lemmas about the solver embedding -/

theorem mem_setAdd {l : List Pkg} {p q : Pkg} : q ∈ setAdd l p ↔ q ∈ l ∨ q = p := by
  unfold setAdd
  by_cases h : p ∈ l
  · rw [if_pos h]
    exact ⟨Or.inl, fun hq => hq.elim id (fun he => he ▸ h)⟩
  · rw [if_neg h]
    simp

theorem setAdd_nodup {l : List Pkg} (p : Pkg) (h : l.Nodup) : (setAdd l p).Nodup := by
  unfold setAdd
  split
  · exact h
  · next hp => simpa [List.nodup_append] using ⟨h, fun hm => hp hm⟩

theorem foldl_setAdd_mem {q : Pkg} :
    ∀ (deps : List Pkg) (l : List Pkg), q ∈ deps.foldl setAdd l ↔ q ∈ l ∨ q ∈ deps := by
  intro deps
  induction deps with
  | nil => simp
  | cons d rest ih =>
    intro l
    simp only [List.foldl_cons, ih, mem_setAdd, List.mem_cons]
    tauto

theorem foldl_setAdd_nodup :
    ∀ (deps : List Pkg) (l : List Pkg), l.Nodup → (deps.foldl setAdd l).Nodup := by
  intro deps
  induction deps with
  | nil => exact fun l h => h
  | cons d rest ih => exact fun l h => ih _ (setAdd_nodup d h)

theorem mem_visitNames_left {vis : List String} {p : Pkg} {n : String} (h : n ∈ vis) :
    n ∈ visitNames vis p := List.mem_append_left _ h

theorem mem_visitNames_names {vis : List String} {p : Pkg} {n : String} (h : n ∈ p.names) :
    n ∈ visitNames vis p := List.mem_append_right _ h

theorem foldl_visitNames_mono {n : String} :
    ∀ (deps : List Pkg) (vis : List String), n ∈ vis → n ∈ deps.foldl visitNames vis := by
  intro deps
  induction deps with
  | nil => exact fun vis h => h
  | cons d rest ih => exact fun vis h => ih _ (mem_visitNames_left h)

theorem repoLookup_mem {repo : PkgRepo} {n : String} {p : Pkg}
    (h : repoLookup repo n = some p) : p ∈ repo.map (fun e => e.2) := by
  unfold repoLookup at h
  cases hf : repo.find? (fun e => e.1 = n) with
  | none => rw [hf] at h; simp at h
  | some e =>
    rw [hf] at h
    simp only [Option.map_some', Option.some.injEq] at h
    exact h ▸ List.mem_map_of_mem _ (List.mem_of_find?_eq_some hf)

theorem goodRepo_names {repo : PkgRepo} (hg : GoodRepo repo) {n : String} {p : Pkg}
    (h : repoLookup repo n = some p) : n ∈ p.names := by
  unfold repoLookup at h
  cases hf : repo.find? (fun e => e.1 = n) with
  | none => rw [hf] at h; simp at h
  | some e =>
    rw [hf] at h
    simp only [Option.map_some', Option.some.injEq] at h
    have hmem := List.mem_of_find?_eq_some hf
    have hprop := List.find?_some hf
    simp only [decide_eq_true_eq] at hprop
    have := hg e hmem
    rw [hprop] at this
    exact h ▸ this

theorem exists_min_rank (f : Pkg → Nat) :
    ∀ (l : List Pkg), l ≠ [] → ∃ a ∈ l, ∀ b ∈ l, f a ≤ f b := by
  intro l
  induction l with
  | nil => intro h; exact absurd rfl h
  | cons x xs ih =>
    intro _
    cases hxs : xs with
    | nil => exact ⟨x, List.mem_cons_self _ _, by simp [hxs]⟩
    | cons y ys =>
      obtain ⟨a, ha, hmin⟩ := ih (by simp [hxs])
      rw [← hxs] at *
      by_cases hle : f x ≤ f a
      · refine ⟨x, List.mem_cons_self _ _, ?_⟩
        intro b hb
        rcases List.mem_cons.1 hb with rfl | hb
        · exact le_refl _
        · exact le_trans hle (hmin b hb)
      · refine ⟨a, List.mem_cons_of_mem _ ha, ?_⟩
        intro b hb
        rcases List.mem_cons.1 hb with rfl | hb
        · exact le_of_lt (lt_of_not_le hle)
        · exact hmin b hb

/-- Specification of the dependency DFS `visitDeps`: the returned visited
list extends the input by exactly the names of the yielded packages; every
processed dependency name that the index maps ends up visited; the yielded
packages have all their mapped dependency names visited; and every yielded
package is a value of the index. -/
theorem visitDeps_spec {repo : PkgRepo} (hg : GoodRepo repo) :
    ∀ (fuel : Nat) (vis names : List String) (res : List Pkg) (vis' : List String),
      visitDeps repo fuel vis names = .ok (res, vis') →
      vis' = vis ++ (res.map Pkg.names).flatten ∧
      (∀ n ∈ names, (∃ d, repoLookup repo n = some d) → n ∈ vis') ∧
      (∀ p ∈ res, ∀ n ∈ p.depends, (∃ d, repoLookup repo n = some d) → n ∈ vis') ∧
      (∀ p ∈ res, ∃ n, repoLookup repo n = some p) := by
  intro fuel
  induction fuel with
  | zero => intro vis names res vis' h; simp [visitDeps] at h
  | succ fuel ih =>
    intro vis names res vis' h
    cases names with
    | nil =>
      simp only [visitDeps, Except.ok.injEq, Prod.mk.injEq] at h
      obtain ⟨rfl, rfl⟩ := h
      refine ⟨by simp, by simp, by simp, by simp⟩
    | cons depName rest =>
      by_cases hvis : depName ∈ vis
      · simp only [visitDeps, if_pos hvis] at h
        obtain ⟨hvs, hnm, hres, horig⟩ := ih vis rest res vis' h
        refine ⟨hvs, ?_, hres, horig⟩
        intro n hn hd
        rcases List.mem_cons.1 hn with rfl | hn
        · rw [hvs]; exact List.mem_append_left _ hvis
        · exact hnm n hn hd
      · cases hlk : repoLookup repo depName with
        | none =>
          simp only [visitDeps, if_neg hvis, hlk] at h
          obtain ⟨hvs, hnm, hres, horig⟩ := ih vis rest res vis' h
          refine ⟨hvs, ?_, hres, horig⟩
          intro n hn hd
          rcases List.mem_cons.1 hn with rfl | hn
          · obtain ⟨d, hd⟩ := hd; rw [hlk] at hd; cases hd
          · exact hnm n hn hd
        | some depPkg =>
          simp only [visitDeps, if_neg hvis, hlk] at h
          split at h
          · exact absurd h (by simp)
          · rename_i sub vis2 h1
            split at h
            · exact absurd h (by simp)
            · rename_i tail vis3 h2
              simp only [Except.ok.injEq, Prod.mk.injEq] at h
              obtain ⟨rfl, rfl⟩ := h
              obtain ⟨hvs1, hnm1, hres1, horig1⟩ := ih _ _ _ _ h1
              obtain ⟨hvs2, hnm2, hres2, horig2⟩ := ih _ _ _ _ h2
              have hmono2 : ∀ n ∈ vis2, n ∈ vis3 := by
                intro n hn; rw [hvs2]; exact List.mem_append_left _ hn
              have hmono1 : ∀ n ∈ visitNames vis depPkg, n ∈ vis3 := by
                intro n hn; exact hmono2 _ (hvs1 ▸ List.mem_append_left _ hn)
              constructor
              · rw [hvs2, hvs1]
                simp [visitNames, List.append_assoc]
              refine ⟨?_, ?_, ?_⟩
              · intro n hn hd
                rcases List.mem_cons.1 hn with rfl | hn
                · exact hmono1 _ (mem_visitNames_names (goodRepo_names hg hlk))
                · exact hnm2 n hn hd
              · intro p hp n hn hd
                rcases List.mem_cons.1 hp with rfl | hp
                · exact hmono2 _ (hnm1 n hn hd)
                · rcases List.mem_append.1 hp with hp | hp
                  · exact hmono2 _ (hres1 p hp n hn hd)
                  · exact hres2 p hp n hn hd
              · intro p hp
                rcases List.mem_cons.1 hp with rfl | hp
                · exact ⟨depName, hlk⟩
                · rcases List.mem_append.1 hp with hp | hp
                  · exact horig1 p hp
                  · exact horig2 p hp

/-- Specification of the level-0 initialisation: visited names only grow,
duplicate-freeness of the level is preserved, every placed package is a
requested one or an index value, and every placed package has its mapped
dependency names visited. -/
theorem initLevel0_spec {repo : PkgRepo} (hg : GoodRepo repo) (fuel : Nat) :
    ∀ (build : List Pkg) (vis : List String) (lvl0 : List Pkg)
      (vis' : List String) (lvl0' : List Pkg),
      initLevel0 repo fuel build vis lvl0 = .ok (vis', lvl0') →
      (∀ n ∈ vis, n ∈ vis') ∧
      (lvl0.Nodup → lvl0'.Nodup) ∧
      (∀ p ∈ lvl0', p ∈ lvl0 ∨ p ∈ build ∨ ∃ n, repoLookup repo n = some p) ∧
      ((∀ p ∈ lvl0, ∀ n ∈ p.depends, (∃ d, repoLookup repo n = some d) → n ∈ vis) →
        ∀ p ∈ lvl0', ∀ n ∈ p.depends, (∃ d, repoLookup repo n = some d) → n ∈ vis') := by
  intro build
  induction build with
  | nil =>
    intro vis lvl0 vis' lvl0' h
    simp only [initLevel0, Except.ok.injEq, Prod.mk.injEq] at h
    obtain ⟨rfl, rfl⟩ := h
    exact ⟨fun n hn => hn, id, fun p hp => Or.inl hp, fun hc => hc⟩
  | cons package restBuild ih =>
    intro vis lvl0 vis' lvl0' h
    simp only [initLevel0] at h
    split at h
    · exact absurd h (by simp)
    · rename_i deps vis2 h1
      obtain ⟨hvs1, hnm1, hres1, horig1⟩ := visitDeps_spec hg fuel _ _ _ _ h1
      obtain ⟨hmono, hnd, horig, hclos⟩ := ih _ _ _ _ h
      have hv2 : ∀ n ∈ visitNames vis package, n ∈ vis2 := by
        intro n hn; rw [hvs1]; exact List.mem_append_left _ hn
      have hv3 : ∀ n ∈ vis2, n ∈ deps.foldl visitNames vis2 :=
        fun n hn => foldl_visitNames_mono deps vis2 hn
      refine ⟨?_, ?_, ?_, ?_⟩
      · intro n hn
        exact hmono _ (hv3 _ (hv2 _ (mem_visitNames_left hn)))
      · intro hnodup
        exact hnd (foldl_setAdd_nodup deps _ (setAdd_nodup _ hnodup))
      · intro p hp
        rcases horig p hp with hp2 | hp2 | hp2
        · rcases (foldl_setAdd_mem deps _).1 hp2 with hp3 | hp3
          · rcases mem_setAdd.1 hp3 with hp4 | rfl
            · exact Or.inl hp4
            · exact Or.inr (Or.inl (List.mem_cons_self _ _))
          · exact Or.inr (Or.inr (horig1 p hp3))
        · exact Or.inr (Or.inl (List.mem_cons_of_mem _ hp2))
        · exact Or.inr (Or.inr hp2)
      · intro hin
        apply hclos
        intro p hp n hn hd
        rcases (foldl_setAdd_mem deps _).1 hp with hp2 | hp2
        · rcases mem_setAdd.1 hp2 with hp3 | rfl
          · exact hv3 _ (hv2 _ (mem_visitNames_left (hin p hp3 n hn hd)))
          · exact hv3 _ (hnm1 n hn hd)
        · exact hv3 _ (hres1 p hp2 n hn hd)

theorem addDeps_skip {repo : PkgRepo} {st : PassState} {depName : String}
    (h : depName ∈ st.vis ∨ repoLookup repo depName = none) :
    addDeps repo st depName = st := by
  unfold addDeps
  by_cases hv : depName ∈ st.vis
  · rw [if_pos hv]
  · rw [if_neg hv]
    rcases h with h | h
    · exact absurd h hv
    · rw [h]

theorem foldl_addDeps_skip {repo : PkgRepo} :
    ∀ (deps : List String) (st : PassState),
      (∀ n ∈ deps, n ∈ st.vis ∨ repoLookup repo n = none) →
      deps.foldl (addDeps repo) st = st := by
  intro deps
  induction deps with
  | nil => intro st _; rfl
  | cons d rest ih =>
    intro st h
    rw [List.foldl_cons, addDeps_skip (h d (List.mem_cons_self _ _))]
    exact ih st (fun n hn => h n (List.mem_cons_of_mem _ hn))

/-- Characterisation of one pass over the snapshot when every subject's
mapped dependency names are already visited (which the closure invariant
guarantees): the dependency-adding loop is a no-op, every subject is still
on the level at its turn, and a subject moves up exactly when `doMove`
fires (a condition depending only on the fixed snapshot). -/
theorem runPass_eq {repo : PkgRepo} (snapshot : List Pkg) :
    ∀ (rest cur nxt : List Pkg) (vis : List String) (m : Bool),
      rest.Nodup →
      (∀ p ∈ rest, p ∈ cur) →
      cur.Nodup →
      (∀ p ∈ rest, p ∉ nxt) →
      (∀ p ∈ rest, ∀ n ∈ p.depends, n ∈ vis ∨ repoLookup repo n = none) →
      rest.foldl (processPkg repo snapshot) ⟨cur, nxt, vis, m⟩ =
        ⟨cur.filter (fun q => !(decide (q ∈ rest) && doMove snapshot q)),
         nxt ++ rest.filter (fun q => doMove snapshot q),
         vis, m || rest.any (fun q => doMove snapshot q)⟩ := by
  intro rest
  induction rest with
  | nil =>
    intro cur nxt vis m _ _ _ _ _
    simp
  | cons p rest' ih =>
    intro cur nxt vis m hnd hsub hcnd hdisj hcl
    have hpcur : p ∈ cur := hsub p (List.mem_cons_self _ _)
    have hpnxt : p ∉ nxt := hdisj p (List.mem_cons_self _ _)
    have hpnotrest : p ∉ rest' := (List.nodup_cons.1 hnd).1
    have hndrest : rest'.Nodup := (List.nodup_cons.1 hnd).2
    have hclp : ∀ n ∈ p.depends, n ∈ vis ∨ repoLookup repo n = none :=
      hcl p (List.mem_cons_self _ _)
    rw [List.foldl_cons]
    by_cases hmv : doMove snapshot p
    · have hproc : processPkg repo snapshot ⟨cur, nxt, vis, m⟩ p =
          ⟨cur.erase p, setAdd nxt p, vis, true⟩ := by
        simp only [processPkg, if_pos hpcur, if_pos hmv]
        exact foldl_addDeps_skip _ _ hclp
      have hsub' : ∀ q ∈ rest', q ∈ cur.erase p := by
        intro q hq
        rw [List.Nodup.erase_eq_filter hcnd]
        refine List.mem_filter.2 ⟨hsub q (List.mem_cons_of_mem _ hq), ?_⟩
        have hqp : q ≠ p := fun he => hpnotrest (he ▸ hq)
        simp [hqp]
      have hdisj' : ∀ q ∈ rest', q ∉ setAdd nxt p := by
        intro q hq hmem
        rcases mem_setAdd.1 hmem with hmem | rfl
        · exact hdisj q (List.mem_cons_of_mem _ hq) hmem
        · exact hpnotrest hq
      rw [hproc, ih (cur.erase p) (setAdd nxt p) vis true hndrest hsub'
        (hcnd.erase p) hdisj' (fun q hq => hcl q (List.mem_cons_of_mem _ hq))]
      have hcur : (cur.erase p).filter (fun q => !(decide (q ∈ rest') && doMove snapshot q)) =
          cur.filter (fun q => !(decide (q ∈ p :: rest') && doMove snapshot q)) := by
        rw [List.Nodup.erase_eq_filter hcnd, List.filter_filter]
        apply List.filter_congr
        intro x _
        by_cases hxp : x = p
        · subst hxp
          simp [hmv, hpnotrest]
        · simp [hxp, List.mem_cons]
      have hnxt : setAdd nxt p ++ rest'.filter (fun q => doMove snapshot q) =
          nxt ++ (p :: rest').filter (fun q => doMove snapshot q) := by
        rw [setAdd, if_neg hpnxt, List.filter_cons_of_pos hmv, List.append_assoc]
        rfl
      have hany : (true || rest'.any (fun q => doMove snapshot q)) =
          (m || (p :: rest').any (fun q => doMove snapshot q)) := by
        simp [hmv]
      rw [hcur, hnxt, hany]
    · have hmv' : doMove snapshot p = false := by
        simpa using hmv
      have hproc : processPkg repo snapshot ⟨cur, nxt, vis, m⟩ p = ⟨cur, nxt, vis, m⟩ := by
        simp only [processPkg, if_pos hpcur, hmv', if_false, Bool.false_eq_true]
        exact foldl_addDeps_skip _ _ hclp
      rw [hproc, ih cur nxt vis m hndrest
        (fun q hq => hsub q (List.mem_cons_of_mem _ hq)) hcnd
        (fun q hq => hdisj q (List.mem_cons_of_mem _ hq))
        (fun q hq => hcl q (List.mem_cons_of_mem _ hq))]
      have hcur : cur.filter (fun q => !(decide (q ∈ rest') && doMove snapshot q)) =
          cur.filter (fun q => !(decide (q ∈ p :: rest') && doMove snapshot q)) := by
        apply List.filter_congr
        intro x _
        by_cases hxp : x = p
        · subst hxp
          simp [hmv', hpnotrest]
        · simp [hxp, List.mem_cons]
      have hnxt : rest'.filter (fun q => doMove snapshot q) =
          (p :: rest').filter (fun q => doMove snapshot q) := by
        rw [List.filter_cons_of_neg (by simp [hmv'])]
      have hany : rest'.any (fun q => doMove snapshot q) =
          (p :: rest').any (fun q => doMove snapshot q) := by
        simp [hmv']
      rw [hcur, hnxt, hany]

/-- `runPass` on the full current level (the source snapshots
`level_copy = dep_levels[level].copy()` and folds over it). -/
theorem runPass_self {repo : PkgRepo} {cur nxt : List Pkg} {vis : List String}
    (hcnd : cur.Nodup) (hdisj : ∀ p ∈ cur, p ∉ nxt)
    (hcl : ∀ p ∈ cur, ∀ n ∈ p.depends, n ∈ vis ∨ repoLookup repo n = none) :
    runPass repo cur ⟨cur, nxt, vis, false⟩ =
      ⟨cur.filter (fun q => !doMove cur q),
       nxt ++ cur.filter (fun q => doMove cur q),
       vis, cur.any (fun q => doMove cur q)⟩ := by
  unfold runPass
  rw [runPass_eq cur cur cur nxt vis false hcnd (fun p hp => hp) hcnd hdisj hcl]
  have hfil : cur.filter (fun q => !(decide (q ∈ cur) && doMove cur q)) =
      cur.filter (fun q => !doMove cur q) := by
    apply List.filter_congr
    intro x hx
    simp [hx]
  rw [hfil]
  simp

/-- Unfolding of the `doMove` condition. -/
theorem doMove_spec {snapshot : List Pkg} {pkg : Pkg} :
    doMove snapshot pkg = true ↔ ∃ other ∈ snapshot, other ≠ pkg ∧ depOn other pkg := by
  unfold doMove depOn
  simp [List.any_eq_true]

/-- All packages ever placed on levels: the frozen levels, the current
level and the next level. -/
def LoopState.placed (st : LoopState) : List Pkg := st.frozen.flatten ++ (st.cur ++ st.nxt)

/-- The loop invariant of the scheduling `while` loop. -/
structure GdcInv (repo : PkgRepo) (toBuild : List Pkg) (st : LoopState) : Prop where
  nodup : st.placed.Nodup
  closure : ∀ p ∈ st.placed, ∀ n ∈ p.depends, (∃ d, repoLookup repo n = some d) → n ∈ st.vis
  origin : ∀ p ∈ st.placed, p ∈ pkgUniverse repo toBuild
  frozenPW : st.frozen.Pairwise (fun X Y => ∀ r ∈ Y, ∀ p ∈ X, ¬ depOn r p)
  frozenSame : ∀ lvl ∈ st.frozen, ∀ r ∈ lvl, ∀ p ∈ lvl, ¬ depOn r p
  curNoFrozen : ∀ r, (r ∈ st.cur ∨ r ∈ st.nxt) → ∀ p ∈ st.frozen.flatten, ¬ depOn r p
  nxtNoCur : ∀ r ∈ st.nxt, ∀ p ∈ st.cur, ¬ depOn r p
  emptyCur : st.cur = [] → st.nxt = []

/-- The guarantees of a successfully returned level list: no empty level,
no recipe on two levels (or twice on one), no recipe depending by name on a
recipe of the same or a later level. -/
def ChainOk (L : List (List Pkg)) : Prop :=
  (∀ lvl ∈ L, lvl ≠ []) ∧ L.flatten.Nodup ∧
  L.Pairwise (fun A B => ∀ r ∈ A, ∀ p ∈ B, ¬ depOn r p) ∧
  (∀ lvl ∈ L, ∀ r ∈ lvl, ∀ p ∈ lvl, ¬ depOn r p)

/-- On loop exit the current (hence also next) level is empty and the
frozen levels, reversed and pruned, satisfy all level-plan guarantees. -/
theorem chainOk_exit {repo : PkgRepo} {toBuild : List Pkg} {st : LoopState}
    (inv : GdcInv repo toBuild st) (hcur : st.cur = []) :
    ChainOk (((st.frozen ++ [st.cur, st.nxt]).reverse).filter (fun lvl => !lvl.isEmpty)) := by
  have hnxt : st.nxt = [] := inv.emptyCur hcur
  have hL : ((st.frozen ++ [st.cur, st.nxt]).reverse).filter (fun lvl => !lvl.isEmpty) =
      st.frozen.reverse.filter (fun lvl => !lvl.isEmpty) := by
    rw [hcur, hnxt]
    simp
  rw [hL]
  have hfnd : st.frozen.flatten.Nodup := by
    have := inv.nodup
    unfold LoopState.placed at this
    exact this.of_append_left
  obtain ⟨heach, hpwdis⟩ := List.nodup_flatten.1 hfnd
  refine ⟨?_, ?_, ?_, ?_⟩
  · intro lvl hlvl
    have := (List.mem_filter.1 hlvl).2
    simpa using this
  · apply List.nodup_flatten.2
    constructor
    · intro l hl
      exact heach l (List.mem_reverse.1 (List.mem_of_mem_filter hl))
    · refine List.Pairwise.sublist (List.filter_sublist _) ?_
      exact List.pairwise_reverse.2 (hpwdis.imp (fun h => h.symm))
  · refine List.Pairwise.sublist (List.filter_sublist _) ?_
    exact List.pairwise_reverse.2 (inv.frozenPW.imp (fun h => h))
  · intro lvl hlvl
    exact inv.frozenSame lvl (List.mem_reverse.1 (List.mem_of_mem_filter hlvl))

/-- Under acyclicity a pass can never move *every* package off a non-empty
level: a package of minimal rank has no mover, because a mover would be a
dependent of strictly smaller rank. -/
theorem curKeep_ne_nil {repo : PkgRepo} {toBuild : List Pkg} {rank : Pkg → Nat}
    (hrank : AcyclicRank repo toBuild rank) (cur : List Pkg) (hne : cur ≠ [])
    (hU : ∀ p ∈ cur, p ∈ pkgUniverse repo toBuild) :
    cur.filter (fun q => !doMove cur q) ≠ [] := by
  obtain ⟨p0, hp0, hmin⟩ := exists_min_rank rank cur hne
  intro hnil
  have hnotmem : p0 ∉ cur.filter (fun q => !doMove cur q) := by
    rw [hnil]; exact List.not_mem_nil p0
  have hmv : doMove cur p0 = true := by
    by_contra hmv
    have hmv' : doMove cur p0 = false := by simpa using hmv
    exact hnotmem (List.mem_filter.2 ⟨hp0, by simp [hmv']⟩)
  obtain ⟨other, hother, _, hdep⟩ := doMove_spec.1 hmv
  have hlt : rank other < rank p0 := hrank other (hU other hother) p0 (hU p0 hp0) hdep
  exact absurd (hmin other hother) (by omega)

/-- Invariant preservation across one modifying pass: the stayers keep the
level, the movers are appended to the next level. -/
theorem inv_pass {repo : PkgRepo} {toBuild : List Pkg} {rank : Pkg → Nat}
    (hrank : AcyclicRank repo toBuild rank) (st : LoopState)
    (inv : GdcInv repo toBuild st) (hne : st.cur ≠ [])
    (lvl rc : Nat) (ll : Option (List Pkg)) :
    GdcInv repo toBuild
      { frozen := st.frozen,
        cur := st.cur.filter (fun q => !doMove st.cur q),
        nxt := st.nxt ++ st.cur.filter (fun q => doMove st.cur q),
        vis := st.vis, level := lvl, repeatCount := rc, lastLevel := ll } := by
  set curKeep := st.cur.filter (fun q => !doMove st.cur q) with hck
  set curMv := st.cur.filter (fun q => doMove st.cur q) with hcm
  have hperm : (curKeep ++ (st.nxt ++ curMv)).Perm (st.cur ++ st.nxt) := by
    have h1 : (curMv ++ curKeep).Perm st.cur := List.filter_append_perm _ _
    have h2 : (curKeep ++ (st.nxt ++ curMv)).Perm (curKeep ++ (curMv ++ st.nxt)) :=
      List.Perm.append_left _ List.perm_append_comm
    have h3 : curKeep ++ (curMv ++ st.nxt) = (curKeep ++ curMv) ++ st.nxt :=
      (List.append_assoc _ _ _).symm
    have h4 : ((curKeep ++ curMv) ++ st.nxt).Perm ((curMv ++ curKeep) ++ st.nxt) :=
      List.Perm.append_right _ List.perm_append_comm
    have h5 : ((curMv ++ curKeep) ++ st.nxt).Perm (st.cur ++ st.nxt) :=
      List.Perm.append_right _ h1
    exact h2.trans (h3 ▸ (h4.trans h5))
  have hpermPlaced :
      (LoopState.placed
        { frozen := st.frozen, cur := curKeep, nxt := st.nxt ++ curMv,
          vis := st.vis, level := lvl, repeatCount := rc, lastLevel := ll }).Perm st.placed := by
    unfold LoopState.placed
    exact List.Perm.append_left _ hperm
  have hmemPlaced : ∀ p, p ∈
      (LoopState.placed
        { frozen := st.frozen, cur := curKeep, nxt := st.nxt ++ curMv,
          vis := st.vis, level := lvl, repeatCount := rc, lastLevel := ll }) ↔ p ∈ st.placed :=
    fun p => hpermPlaced.mem_iff
  refine ⟨?_, ?_, ?_, ?_, ?_, ?_, ?_, ?_⟩
  · exact (hpermPlaced.symm).nodup inv.nodup
  · intro p hp
    exact inv.closure p ((hmemPlaced p).1 hp)
  · intro p hp
    exact inv.origin p ((hmemPlaced p).1 hp)
  · exact inv.frozenPW
  · exact inv.frozenSame
  · intro r hr
    apply inv.curNoFrozen r
    rcases hr with hr | hr
    · exact Or.inl (List.mem_of_mem_filter hr)
    · rcases List.mem_append.1 hr with hr | hr
      · exact Or.inr hr
      · exact Or.inl (List.mem_of_mem_filter hr)
  · intro r hr p hp hdep
    have hpcur : p ∈ st.cur := List.mem_of_mem_filter hp
    have hpnomv : doMove st.cur p = false := by
      have := (List.mem_filter.1 hp).2
      simpa using this
    rcases List.mem_append.1 hr with hr | hr
    · exact inv.nxtNoCur r hr p hpcur hdep
    · have hrcur : r ∈ st.cur := List.mem_of_mem_filter hr
      have hrmv : doMove st.cur r = true := by
        have := (List.mem_filter.1 hr).2
        simpa using this
      have hrp : r ≠ p := by
        intro he
        rw [he] at hrmv
        rw [hrmv] at hpnomv
        cases hpnomv
      have : doMove st.cur p = true := doMove_spec.2 ⟨r, hrcur, hrp, hdep⟩
      rw [this] at hpnomv
      cases hpnomv
  · intro hnil
    exact absurd hnil (curKeep_ne_nil hrank st.cur hne
      (fun p hp => inv.origin p (List.mem_append_right _ (List.mem_append_left _ hp))))

/-- Invariant preservation across a level advance (an unmodified pass):
the fixpointed current level is frozen and the next level becomes current. -/
theorem inv_advance {repo : PkgRepo} {toBuild : List Pkg} {rank : Pkg → Nat}
    (hrank : AcyclicRank repo toBuild rank) (st : LoopState)
    (inv : GdcInv repo toBuild st)
    (hfix : ∀ p ∈ st.cur, doMove st.cur p = false)
    (lvl rc : Nat) (ll : Option (List Pkg)) :
    GdcInv repo toBuild
      { frozen := st.frozen ++ [st.cur], cur := st.nxt, nxt := [],
        vis := st.vis, level := lvl, repeatCount := rc, lastLevel := ll } := by
  have hplacedEq :
      LoopState.placed
        { frozen := st.frozen ++ [st.cur], cur := st.nxt, nxt := ([] : List Pkg),
          vis := st.vis, level := lvl, repeatCount := rc, lastLevel := ll } =
        st.frozen.flatten ++ st.cur ++ st.nxt := by
    unfold LoopState.placed
    simp
  have hplacedEq' : st.placed = st.frozen.flatten ++ st.cur ++ st.nxt := by
    unfold LoopState.placed
    simp
  refine ⟨?_, ?_, ?_, ?_, ?_, ?_, ?_, ?_⟩
  · rw [hplacedEq, ← hplacedEq']
    exact inv.nodup
  · intro p hp
    rw [hplacedEq, ← hplacedEq'] at hp
    exact inv.closure p hp
  · intro p hp
    rw [hplacedEq, ← hplacedEq'] at hp
    exact inv.origin p hp
  · apply List.pairwise_append.2
    refine ⟨inv.frozenPW, List.pairwise_singleton _ _, ?_⟩
    intro X hX Y hY
    have hYc : Y = st.cur := by simpa using hY
    subst hYc
    intro r hr p hp
    exact inv.curNoFrozen r (Or.inl hr) p (List.mem_flatten.2 ⟨X, hX, hp⟩)
  · intro lvl' hlvl'
    rcases List.mem_append.1 hlvl' with hl | hl
    · exact inv.frozenSame lvl' hl
    · have hc : lvl' = st.cur := by simpa using hl
      subst hc
      intro r hr p hp hdep
      by_cases hrp : r = p
      · subst hrp
        have hU : r ∈ pkgUniverse repo toBuild :=
          inv.origin r (List.mem_append_right _ (List.mem_append_left _ hr))
        exact absurd (hrank r hU r hU hdep) (by omega)
      · have : doMove st.cur p = true := doMove_spec.2 ⟨r, hr, hrp, hdep⟩
        rw [hfix p hp] at this
        cases this
  · intro r hr p hp
    rcases hr with hr | hr
    · rcases List.mem_flatten.1 hp with ⟨X, hX, hpX⟩
      rcases List.mem_append.1 hX with hX | hX
      · exact inv.curNoFrozen r (Or.inr hr) p (List.mem_flatten.2 ⟨X, hX, hpX⟩)
      · have hc : X = st.cur := by simpa using hX
        subst hc
        exact inv.nxtNoCur r hr p hpX
    · cases hr
  · intro r hr
    cases hr
  · intro _
    rfl

/-- The main loop induction: from any state satisfying the invariant, a
successful run of `gdcLoop` returns a level list with all the level-plan
guarantees. -/
theorem gdcLoop_ok {repo : PkgRepo} {toBuild : List Pkg} (rank : Pkg → Nat)
    (hrank : AcyclicRank repo toBuild rank) :
    ∀ (fuel : Nat) (st : LoopState) (L : List (List Pkg)),
      GdcInv repo toBuild st →
      gdcLoop repo fuel st = .ok L →
      ChainOk L := by
  intro fuel
  induction fuel with
  | zero =>
    intro st L _ h
    simp [gdcLoop] at h
  | succ fuel ih =>
    intro st L inv h
    simp only [gdcLoop] at h
    by_cases hcur : st.cur.isEmpty
    · rw [if_pos hcur] at h
      simp only [Except.ok.injEq] at h
      rw [← h]
      exact chainOk_exit inv (by simpa using hcur)
    · rw [if_neg hcur] at h
      by_cases hlev : 100 < st.level
      · rw [if_pos hlev] at h
        exact absurd h (by simp)
      · rw [if_neg hlev] at h
        have hcne : st.cur ≠ [] := by simpa using hcur
        have hcnnd : (st.cur ++ st.nxt).Nodup := by
          have hn := inv.nodup
          unfold LoopState.placed at hn
          exact hn.of_append_right
        have hcnd : st.cur.Nodup := hcnnd.of_append_left
        have hdisj : ∀ p ∈ st.cur, p ∉ st.nxt := by
          have h3 := List.nodup_append.1 hcnnd
          intro p hp hpn
          exact h3.2.2 hp hpn
        have hcl' : ∀ p ∈ st.cur, ∀ n ∈ p.depends,
            n ∈ st.vis ∨ repoLookup repo n = none := by
          intro p hp n hn
          cases hl : repoLookup repo n with
          | none => exact Or.inr rfl
          | some d =>
            refine Or.inl (inv.closure p ?_ n hn ⟨d, hl⟩)
            exact List.mem_append_right _ (List.mem_append_left _ hp)
        rw [runPass_self hcnd hdisj hcl'] at h
        dsimp only at h
        split at h
        all_goals
          split at h
          · simp at h
          · split at h
            · exact ih _ L (inv_pass hrank st inv hcne _ _ _) h
            · rename_i hmodfalse
              have hfix : ∀ p ∈ st.cur, doMove st.cur p = false := by
                intro p hp
                by_contra hmvp
                have hmvp' : doMove st.cur p = true := by simpa using hmvp
                exact hmodfalse (List.any_eq_true.2 ⟨p, hp, hmvp'⟩)
              have hkeep : st.cur.filter (fun q => !doMove st.cur q) = st.cur := by
                apply List.filter_eq_self.2
                intro p hp
                simp [hfix p hp]
              have hmv0 : st.cur.filter (fun q => doMove st.cur q) = [] := by
                apply List.filter_eq_nil_iff.2
                intro p hp
                simp [hfix p hp]
              rw [hkeep, hmv0, List.append_nil] at h
              exact ih _ L (inv_advance hrank st inv hfix _ _ _) h

/-- C1 counterexample: the claim as stated is false.  In this concrete
acyclic instance `shadowR` depends on the name `"x"`, which the index maps
to `shadowQ`; but the seed `shadowP` carries `"x"` as a `replaces` alias,
so `"x"` is in `visited_names` before `shadowR`'s dependencies are
expanded and `shadowQ` is never placed on any level: the returned plan is
`[{shadowP}, {shadowR}]`, in which the index-mapped dependency `shadowQ`
of the output recipe `shadowR` does not appear at all — in particular not
in a strictly earlier level. -/
theorem c1_counterexample :
    generate_dependency_chain shadowRepo [shadowP, shadowR] 50 = .ok [[shadowP], [shadowR]] ∧
    "x" ∈ shadowR.depends ∧
    repoLookup shadowRepo "x" = some shadowQ ∧
    shadowR ∈ [shadowR] ∧
    shadowQ ∉ [shadowP] ∧ shadowQ ∉ [shadowR] ∧
    GoodRepo shadowRepo ∧
    (∃ rank, AcyclicRank shadowRepo [shadowP, shadowR] rank) := by
  refine ⟨rfl, by decide, rfl, by decide, by decide, by decide, by decide, ?_⟩
  exact ⟨fun p => if p.name = "r" then 0 else 1, by decide⟩

/-- C1 (amended): for a well-formed index and a seed set whose
name-dependency relation over the universe of seeds and index values is
acyclic, a successful `generate_dependency_chain` run returns a level list
in which no level is empty, no recipe appears twice, and every
index-mapped local dependency of an output recipe **that itself appears in
the output** sits in a strictly earlier level; and on the diamond
`a→b, a→c, b→d, c→d` the output is exactly `[{d}, {b, c}, {a}]`.
(The original claim, without the "that itself appears in the output"
proviso, is refuted by `c1_counterexample`: an alias can shadow the
index-mapped dependency out of the plan.) -/
theorem c1_theorem :
    (∀ (repo : PkgRepo) (toBuild : List Pkg) (fuel : Nat) (L : List (List Pkg)),
        GoodRepo repo →
        (∃ rank, AcyclicRank repo toBuild rank) →
        generate_dependency_chain repo toBuild fuel = .ok L →
        (∀ lvl ∈ L, lvl ≠ []) ∧
        L.flatten.Nodup ∧
        (∀ (i j : Fin L.length) (r d : Pkg) (n : String),
          r ∈ L.get i → n ∈ r.depends → repoLookup repo n = some d → d ∈ L.get j →
          j < i)) ∧
    generate_dependency_chain diamondRepo [diamondA] 50 =
      .ok [[diamondD], [diamondB, diamondC], [diamondA]] := by
  constructor
  · intro repo toBuild fuel L hg hacyc h
    obtain ⟨rank, hrank⟩ := hacyc
    simp only [generate_dependency_chain] at h
    split at h
    · exact absurd h (by simp)
    · rename_i vis lvl0 hinit
      obtain ⟨_, hnd, horig, hclos⟩ := initLevel0_spec hg fuel _ _ _ _ _ hinit
      have hclos' := hclos (by intro p hp; cases hp)
      have inv0 : GdcInv repo toBuild ⟨[], lvl0, [], vis, 0, 0, none⟩ := by
        refine ⟨?_, ?_, ?_, ?_, ?_, ?_, ?_, ?_⟩
        · unfold LoopState.placed
          simpa using hnd List.nodup_nil
        · intro p hp
          unfold LoopState.placed at hp
          simp only [List.flatten_nil, List.nil_append, List.append_nil] at hp
          exact hclos' p hp
        · intro p hp
          unfold LoopState.placed at hp
          simp only [List.flatten_nil, List.nil_append, List.append_nil] at hp
          rcases horig p hp with hc | hc | hc
          · cases hc
          · exact List.mem_append_left _ hc
          · obtain ⟨n, hn⟩ := hc
            exact List.mem_append_right _ (repoLookup_mem hn)
        · exact List.Pairwise.nil
        · intro lvl hlvl
          cases hlvl
        · intro r _ p hp
          cases hp
        · intro r hr
          cases hr
        · intro h0
          rfl
      have hok := gdcLoop_ok rank hrank fuel _ L inv0 h
      obtain ⟨hne, hnodup, hpw, hsame⟩ := hok
      refine ⟨hne, hnodup, ?_⟩
      intro i j r d n hr hn hlk hd
      have hdep : depOn r d := ⟨n, hn, goodRepo_names hg hlk⟩
      rcases lt_trichotomy (j : Nat) (i : Nat) with hlt | heq | hgt
      · exact hlt
      · exfalso
        have hij : i = j := Fin.ext heq.symm
        subst hij
        exact hsame (L.get i) (L.get_mem i.1 i.2) r hr d hd hdep
      · exfalso
        have hij : i < j := hgt
        exact (List.pairwise_iff_get.1 hpw) i j hij r hr d hd hdep
  · rfl

/-- Witness for C1: the amended theorem applied at the diamond instance,
discharging the well-formedness and acyclicity hypotheses concretely. -/
theorem c1_witness :
    (∀ lvl ∈ [[diamondD], [diamondB, diamondC], [diamondA]], lvl ≠ []) ∧
    ([[diamondD], [diamondB, diamondC], [diamondA]] : List (List Pkg)).flatten.Nodup := by
  have h := c1_theorem.1 diamondRepo [diamondA] 50 _ (by decide)
    ⟨fun p => if p.name = "a" then 0 else if p.name = "d" then 2 else 1, by decide⟩
    c1_theorem.2
  exact ⟨h.1, h.2.1⟩

/-! ### Embedding of the build strategy router
(`build_package`, src/packages/build.py lines 490-592)

`build_package` is effectful (chroot setup, package installation,
subprocesses); the embedding projects out its routing decisions: which
chroot becomes the build root, which mounts are requested, the PATH
composed for the inner environment, and the composed `makepkg` argv.  The
dependency-list computation (lines 504-511) affects none of these and is
not modelled. -/

/-- The routing-relevant fields of a recipe: `_mode`, `_nodeps` and the
package name (matched against `CROSSDIRECT_PKGS`). -/
structure BuildRecipe where
  name : String
  mode : String
  nodeps : Bool
deriving DecidableEq, Repr

inductive BuildRoot where
  | targetChroot
  | nativeChroot
deriving DecidableEq, Repr

/-- `MAKEPKG_CMD` (src/constants.py lines 174-179). -/
def MAKEPKG_CMD : List String := ["makepkg", "--noconfirm", "--ignorearch", "--needed"]

/-- `CROSSDIRECT_PKGS = ['crossdirect'] + QEMU_BINFMT_PKGS`
(src/constants.py lines 146-147). -/
def CROSSDIRECT_PKGS : List String :=
  ["crossdirect", "qemu-user-static-bin", "binfmt-qemu-static"]

/-- The fixed PATH from `get_makepkg_env` (src/packages/build.py line 44). -/
def basePath : String := "/usr/local/sbin:/usr/local/bin:/usr/sbin:/usr/bin:/sbin:/bin"

structure BuildRoute where
  buildRoot : BuildRoot
  makepkgConfPath : String
  pathVar : String
  mountsCrosscompile : Bool
  mountsCrossdirect : Bool
  buildCmd : List String
deriving DecidableEq, Repr

/-- The strategy routing of `build_package`: `cross` (line 530) selects the
native chroot with the target chroot nested via `mount_crosscompile` and a
`makepkg_cross_<arch>.conf` (lines 532-553); otherwise the target chroot,
with crossdirect overlay and PATH shim when enabled and the recipe is not a
crossdirect toolchain package (lines 554-567); the final argv is
`MAKEPKG_CMD + ['--config', <conf>, '--skippgpcheck'] + opts` (line 581)
with opts starting at `['--holdver']` (line 500). -/
def build_package_route (package : BuildRecipe) (arch hostArch : String)
    (enable_crosscompile enable_crossdirect enable_ccache : Bool) : BuildRoute :=
  let makepkg_compile_opts := ["--holdver"]
  let makepkg_conf_path := "etc/makepkg.conf"
  let foreign_arch := hostArch != arch
  let cross := foreign_arch && (package.mode == "cross") && enable_crosscompile
  if cross then
    let opts := makepkg_compile_opts ++ ["--nodeps"]
    let path := if enable_ccache then "/usr/lib/ccache:" ++ basePath else basePath
    let conf := "etc/" ++ ("makepkg" ++ ("_cross_" ++ arch) ++ ".conf")
    { buildRoot := .nativeChroot, makepkgConfPath := conf, pathVar := path,
      mountsCrosscompile := true, mountsCrossdirect := false,
      buildCmd := MAKEPKG_CMD ++ ["--config", "/" ++ conf, "--skippgpcheck"] ++ opts }
  else
    let opts := makepkg_compile_opts ++
      [if package.nodeps then "--nodeps" else "--syncdeps"]
    if foreign_arch && enable_crossdirect && !(CROSSDIRECT_PKGS.contains package.name) then
      { buildRoot := .targetChroot, makepkgConfPath := makepkg_conf_path,
        pathVar := "/native/usr/lib/crossdirect/" ++ arch ++ ":" ++ basePath,
        mountsCrosscompile := false, mountsCrossdirect := true,
        buildCmd := MAKEPKG_CMD ++ ["--config", "/" ++ makepkg_conf_path, "--skippgpcheck"] ++ opts }
    else
      let path := if enable_ccache then "/usr/lib/ccache:" ++ basePath else basePath
      { buildRoot := .targetChroot, makepkgConfPath := makepkg_conf_path, pathVar := path,
        mountsCrosscompile := false, mountsCrossdirect := false,
        buildCmd := MAKEPKG_CMD ++ ["--config", "/" ++ makepkg_conf_path, "--skippgpcheck"] ++ opts }

/-- C5: the router sends a same-arch build to the target chroot with
`--syncdeps` (or `--nodeps` for a `_nodeps` recipe); a foreign-arch build
with `_mode = cross` and crosscompile enabled to the native chroot with the
target chroot nested and `--nodeps`; a remaining foreign-arch build with
crossdirect enabled and a non-crossdirect-toolchain recipe to the target
chroot with the native chroot overlaid at `/native` and the PATH prefixed
by `/native/usr/lib/crossdirect/<arch>`; and every invocation carries
`--config <conf>` and `--skippgpcheck`. -/
theorem c5_build_strategy_router :
    ∀ (package : BuildRecipe) (arch hostArch : String) (cc cd cache : Bool),
      (arch = hostArch →
        (build_package_route package arch hostArch cc cd cache).buildRoot = .targetChroot ∧
        (if package.nodeps then "--nodeps" else "--syncdeps") ∈
          (build_package_route package arch hostArch cc cd cache).buildCmd) ∧
      (arch ≠ hostArch → package.mode = "cross" → cc = true →
        (build_package_route package arch hostArch cc cd cache).buildRoot = .nativeChroot ∧
        "--nodeps" ∈ (build_package_route package arch hostArch cc cd cache).buildCmd ∧
        (build_package_route package arch hostArch cc cd cache).mountsCrosscompile = true) ∧
      (arch ≠ hostArch → ¬(package.mode = "cross" ∧ cc = true) → cd = true →
        package.name ∉ CROSSDIRECT_PKGS →
        (build_package_route package arch hostArch cc cd cache).buildRoot = .targetChroot ∧
        (build_package_route package arch hostArch cc cd cache).mountsCrossdirect = true ∧
        (build_package_route package arch hostArch cc cd cache).pathVar =
          "/native/usr/lib/crossdirect/" ++ arch ++ ":" ++ basePath) ∧
      (∃ opts,
        (build_package_route package arch hostArch cc cd cache).buildCmd =
          MAKEPKG_CMD ++
            ["--config",
             "/" ++ (build_package_route package arch hostArch cc cd cache).makepkgConfPath,
             "--skippgpcheck"] ++ opts) := by
  intro package arch hostArch cc cd cache
  refine ⟨?_, ?_, ?_, ?_⟩
  · intro harch
    subst harch
    simp [build_package_route]
  · intro harch hmode hcc
    subst hcc
    have hne : (hostArch != arch) = true := by
      simp [bne_iff_ne]
      exact fun he => harch he.symm
    simp [build_package_route, hne, hmode]
  · intro harch hncross hcd hnotcdp
    have hne : (hostArch != arch) = true := by
      simp [bne_iff_ne]
      exact fun he => harch he.symm
    have hcross : ((hostArch != arch) && (package.mode == "cross") && cc) = false := by
      by_cases hm : package.mode = "cross"
      · have hc : cc = false := by
          by_contra hcc
          exact hncross ⟨hm, by simpa using hcc⟩
        simp [hc]
      · have hm' : (package.mode == "cross") = false := by simpa using hm
        simp [hm']
    have hcontains : CROSSDIRECT_PKGS.contains package.name = false := by
      by_contra hcc
      have hcc' : CROSSDIRECT_PKGS.contains package.name = true := by simpa using hcc
      exact hnotcdp (by simpa using hcc')
    subst hcd
    simp [build_package_route, hcross, hne, hcontains, hncross, hnotcdp]
  · by_cases h1 : ((hostArch != arch) && (package.mode == "cross") && cc) = true
    · exact ⟨["--holdver", "--nodeps"], by simp [build_package_route, h1]⟩
    · have h1' : ((hostArch != arch) && (package.mode == "cross") && cc) = false := by
        simpa using h1
      refine ⟨["--holdver", if package.nodeps then "--nodeps" else "--syncdeps"], ?_⟩
      simp only [build_package_route, h1', Bool.false_eq_true, if_false]
      split <;> rfl

/-- Witness for C5: the theorem applied at the cross-compile scenario of
the spec (host x86_64, target aarch64, `_mode=cross`, crosscompile
enabled). -/
theorem c5_witness :
    (build_package_route ⟨"foo", "cross", false⟩ "aarch64" "x86_64" true true true).buildRoot =
      .nativeChroot ∧
    "--nodeps" ∈
      (build_package_route ⟨"foo", "cross", false⟩ "aarch64" "x86_64" true true true).buildCmd ∧
    (build_package_route ⟨"foo", "cross", false⟩ "aarch64" "x86_64" true true true).mountsCrosscompile =
      true :=
  (c5_build_strategy_router ⟨"foo", "cross", false⟩ "aarch64" "x86_64" true true true).2.1
    (by decide) rfl rfl

/-! ### Embedding of Chroot.mount (src/chroot/abstract.py lines 136-171)

The kernel's mount table is abstracted by the boolean result of the
`check_findmnt` query for the destination, and the `mount` subprocess by
the boolean success of its exit status; both are passed as parameters. -/

/-- Python `s.lstrip('/')`. -/
def lstripSlashes (s : String) : String := String.mk (s.toList.dropWhile (fun c => c = '/'))

/-- Modelled from the spec: `make_abs_path` is defined in
`chroot/helpers.py`, which is absent from the captured sources; the spec
(§3 Chroot, §4.7) describes the `active_mounts` entries as pseudo-absolute
paths, i.e. the relative destination re-rooted at `/`. -/
def make_abs_path (rel : String) : String := "/" ++ rel

structure MountState where
  activeMounts : List String
  atexitRegistered : Bool
deriving DecidableEq, Repr

inductive MountOutcome where
  | mounted
  | skipped
  | leakError
  | alreadyMountedError
  | mountFailedError
  | cacheInconsistencyError
deriving DecidableEq, Repr

/-- `Chroot.mount` (source lines 136-171): pre-check the kernel view; a
kernel-mounted destination missing from `active_mounts` raises the leak
exception (line 156); a tracked one raises when `fail_if_mounted` (line
158) and is otherwise skipped without remounting (line 159).  An untracked,
unmounted destination is mounted; a tracked-but-unmounted one first goes
through `log_or_exception` which raises only under
`strict_cache_consistency` (lines 161-162).  A successful mount appends the
pseudo-absolute path and registers the atexit deactivation (lines
169-170). -/
def chroot_mount (st : MountState) (relativeDestination : String)
    (kernelMounted mountSucceeds fail_if_mounted strict_cache_consistency : Bool) :
    MountOutcome × MountState :=
  let pseudo := make_abs_path (lstripSlashes relativeDestination)
  if kernelMounted then
    if pseudo ∉ st.activeMounts then (.leakError, st)
    else if fail_if_mounted then (.alreadyMountedError, st)
    else (.skipped, st)
  else
    if pseudo ∈ st.activeMounts ∧ strict_cache_consistency then (.cacheInconsistencyError, st)
    else if mountSucceeds then
      (.mounted, ⟨st.activeMounts ++ [pseudo], true⟩)
    else (.mountFailedError, st)

/-- C8: a kernel-mounted destination absent from `active_mounts` always
raises the leak error without touching the state (never skipped,
reconciled or remounted); a mounted and tracked destination raises iff
`fail_if_mounted` and is otherwise skipped unchanged; and every successful
new mount appends the pseudo-absolute path to `active_mounts`. -/
theorem c8_mount_leak_detection :
    ∀ (st : MountState) (rel : String) (km ms fim scc : Bool),
      (km = true → make_abs_path (lstripSlashes rel) ∉ st.activeMounts →
        chroot_mount st rel km ms fim scc = (.leakError, st)) ∧
      (km = true → make_abs_path (lstripSlashes rel) ∈ st.activeMounts →
        (fim = true → chroot_mount st rel km ms fim scc = (.alreadyMountedError, st)) ∧
        (fim = false → chroot_mount st rel km ms fim scc = (.skipped, st))) ∧
      (∀ out st', chroot_mount st rel km ms fim scc = (out, st') → out = .mounted →
        st'.activeMounts = st.activeMounts ++ [make_abs_path (lstripSlashes rel)]) := by
  intro st rel km ms fim scc
  refine ⟨?_, ?_, ?_⟩
  · intro hkm hnot
    subst hkm
    simp [chroot_mount, hnot]
  · intro hkm hmem
    subst hkm
    constructor
    · intro hfim
      subst hfim
      simp [chroot_mount, hmem]
    · intro hfim
      subst hfim
      simp [chroot_mount, hmem]
  · intro out st' heq hout
    subst hout
    unfold chroot_mount at heq
    by_cases hkm : km = true
    · subst hkm
      simp only [if_true] at heq
      by_cases hmem : make_abs_path (lstripSlashes rel) ∈ st.activeMounts
      · rw [if_neg (by simpa using hmem)] at heq
        by_cases hfim : fim = true
        · rw [if_pos hfim] at heq
          cases heq
        · rw [if_neg hfim] at heq
          cases heq
      · rw [if_pos hmem] at heq
        cases heq
    · have hkm' : km = false := by simpa using hkm
      subst hkm'
      simp only [Bool.false_eq_true, if_false] at heq
      by_cases hstrict : make_abs_path (lstripSlashes rel) ∈ st.activeMounts ∧ scc = true
      · rw [if_pos hstrict] at heq
        cases heq
      · rw [if_neg hstrict] at heq
        by_cases hms : ms = true
        · rw [if_pos hms] at heq
          injection heq with h1 h2
          rw [← h2]
        · rw [if_neg hms] at heq
          cases heq

/-- Witness for C8: the theorem applied at a concrete leaked-mount state
(the kernel reports `/dev` mounted but it is untracked). -/
theorem c8_witness :
    chroot_mount ⟨["/proc"], false⟩ "/dev" true true true false =
      (.leakError, ⟨["/proc"], false⟩) :=
  (c8_mount_leak_detection ⟨["/proc"], false⟩ "/dev" true true true false).1 rfl (by decide)

/-! ### Embedding of the package-dictionary construction of
`discover_pkgbuilds` (src/packages/pkgbuild.py lines 478-483) -/

/-- Python dict assignment `packages[name] = package`: replace in place
when the key exists, append otherwise. -/
def dictSet (d : PkgRepo) (n : String) (p : Pkg) : PkgRepo :=
  if (d.find? (fun e => e.1 = n)).isSome then
    d.map (fun e => if e.1 = n then (n, p) else e)
  else d ++ [(n, p)]

/-- The inner loop of source lines 480-483: each name in
`[package.name] + package.replaces` (note: `provides` aliases are *not*
iterated) is bound to the package, logging an `Overriding ...` warning
when the key is already present (modelled as a warning count). -/
def indexInsert (acc : PkgRepo × Nat) (package : Pkg) : PkgRepo × Nat :=
  (package.name :: package.replaces).foldl
    (fun acc2 n =>
      (dictSet acc2.1 n package,
       if (repoLookup acc2.1 n).isSome then acc2.2 + 1 else acc2.2))
    acc

/-- The `Building package dictionary` loop of `discover_pkgbuilds`
(source lines 478-483). -/
def build_package_dict (results : List Pkg) : PkgRepo × Nat :=
  results.foldl indexInsert ([], 0)

/-- The names a recipe contributes to the dictionary. -/
def covers (q : Pkg) (n : String) : Bool := n ∈ q.name :: q.replaces

theorem repoLookup_cons {k : String} {v : Pkg} {d : PkgRepo} {m : String} :
    repoLookup ((k, v) :: d) m = if k = m then some v else repoLookup d m := by
  unfold repoLookup
  by_cases hk : k = m
  · rw [List.find?_cons_of_pos _ (by simpa using hk), if_pos hk]
    rfl
  · rw [List.find?_cons_of_neg _ (by simpa using hk), if_neg hk]

theorem repoLookup_isSome {d : PkgRepo} {n : String} :
    (repoLookup d n).isSome = (d.find? (fun e => e.1 = n)).isSome := by
  unfold repoLookup
  cases d.find? (fun e => e.1 = n) <;> rfl

theorem repoLookup_map_override {n : String} {p : Pkg} :
    ∀ (d : PkgRepo) (m : String),
      repoLookup (d.map (fun e => if e.1 = n then (n, p) else e)) m =
        if m = n then (if (repoLookup d n).isSome then some p else none)
        else repoLookup d m := by
  intro d
  induction d with
  | nil =>
    intro m
    by_cases hm : m = n <;> simp [hm, repoLookup]
  | cons e rest ih =>
    intro m
    obtain ⟨k, v⟩ := e
    by_cases hk : k = n <;> by_cases hm : m = n <;> by_cases hkm : k = m <;>
      simp_all [List.map_cons, repoLookup_cons]

theorem repoLookup_append_one {n : String} {p : Pkg} :
    ∀ (d : PkgRepo) (m : String),
      repoLookup (d ++ [(n, p)]) m =
        match repoLookup d m with
        | some v => some v
        | none => if m = n then some p else none := by
  intro d
  induction d with
  | nil =>
    intro m
    show repoLookup [(n, p)] m = if m = n then some p else none
    rw [repoLookup_cons]
    by_cases hm : n = m
    · rw [if_pos hm, if_pos hm.symm]
    · rw [if_neg hm, if_neg (fun he => hm he.symm)]
      rfl
  | cons e rest ih =>
    intro m
    obtain ⟨k, v⟩ := e
    rw [List.cons_append, repoLookup_cons, repoLookup_cons]
    by_cases hk : k = m
    · rw [if_pos hk, if_pos hk]
    · rw [if_neg hk, if_neg hk, ih m]

theorem repoLookup_dictSet {n m : String} {p : Pkg} (d : PkgRepo) :
    repoLookup (dictSet d n p) m = if m = n then some p else repoLookup d m := by
  unfold dictSet
  by_cases hpres : (d.find? (fun e => e.1 = n)).isSome
  · rw [if_pos hpres, repoLookup_map_override d m]
    by_cases hm : m = n
    · have hs : (repoLookup d n).isSome = true := by
        rw [repoLookup_isSome]
        exact hpres
      rw [if_pos hm, if_pos hm, if_pos hs]
    · rw [if_neg hm, if_neg hm]
  · rw [if_neg hpres, repoLookup_append_one d m]
    have hnone : repoLookup d n = none := by
      cases hl : repoLookup d n with
      | none => rfl
      | some v =>
        exfalso
        apply hpres
        rw [← repoLookup_isSome, hl]
        rfl
    cases hl : repoLookup d m with
    | none => rfl
    | some v =>
      by_cases hm : m = n
      · subst hm
        rw [hnone] at hl
        cases hl
      · rw [if_neg hm, if_neg hm]

theorem indexInsert_lookup (package : Pkg) :
    ∀ (names : List String) (acc : PkgRepo × Nat) (m : String),
      repoLookup ((names.foldl
        (fun acc2 n =>
          (dictSet acc2.1 n package,
           if (repoLookup acc2.1 n).isSome then acc2.2 + 1 else acc2.2)) acc).1) m =
        if m ∈ names then some package else repoLookup acc.1 m := by
  intro names
  induction names with
  | nil =>
    intro acc m
    simp
  | cons n rest ih =>
    intro acc m
    rw [List.foldl_cons, ih]
    by_cases hmr : m ∈ rest
    · rw [if_pos hmr, if_pos (List.mem_cons_of_mem _ hmr)]
    · rw [if_neg hmr]
      rw [repoLookup_dictSet acc.1]
      by_cases hmn : m = n
      · rw [if_pos hmn, if_pos (hmn ▸ List.mem_cons_self _ _)]
      · rw [if_neg hmn, if_neg (by
          intro hmem
          rcases List.mem_cons.1 hmem with h | h
          · exact hmn h
          · exact hmr h)]

theorem list_find?_append {α : Type} (f : α → Bool) :
    ∀ (l₁ l₂ : List α),
      (l₁ ++ l₂).find? f =
        match l₁.find? f with
        | some x => some x
        | none => l₂.find? f := by
  intro l₁
  induction l₁ with
  | nil => intro l₂; rfl
  | cons x rest ih =>
    intro l₂
    rw [List.cons_append]
    by_cases hx : f x
    · rw [List.find?_cons_of_pos _ hx, List.find?_cons_of_pos _ hx]
    · rw [List.find?_cons_of_neg _ (by simpa using hx),
        List.find?_cons_of_neg _ (by simpa using hx), ih]

theorem build_dict_lookup_aux :
    ∀ (results : List Pkg) (acc : PkgRepo × Nat) (m : String),
      repoLookup ((results.foldl indexInsert acc).1) m =
        match results.reverse.find? (fun q => covers q m) with
        | some q => some q
        | none => repoLookup acc.1 m := by
  intro results
  induction results with
  | nil => intro acc m; rfl
  | cons p rest ih =>
    intro acc m
    rw [List.foldl_cons, ih, List.reverse_cons, list_find?_append]
    cases hr : rest.reverse.find? (fun q => covers q m) with
    | some q => rfl
    | none =>
      show repoLookup (indexInsert acc p).1 m =
        match List.find? (fun q => covers q m) [p] with
        | some q => some q
        | none => repoLookup acc.1 m
      unfold indexInsert
      rw [indexInsert_lookup p]
      by_cases hc : covers p m
      · have hf : List.find? (fun q => covers q m) [p] = some p :=
          List.find?_cons_of_pos _ hc
        rw [hf, if_pos (by simpa [covers] using hc)]
      · have hf : List.find? (fun q => covers q m) [p] = none := by
          rw [List.find?_cons_of_neg _ (by simpa using hc)]
          rfl
        rw [hf, if_neg (by simpa [covers] using hc)]

/-- C9 counterexample: the claim as stated is false — `provides` aliases
are not added to the index.  Concretely, a recipe named `p` that provides
`x` leaves the index without any binding for `x` (the loop at source line
480 iterates only `[package.name] + package.replaces`). -/
theorem c9_counterexample :
    build_package_dict [⟨"p", [], ["x"], []⟩] = ([("p", ⟨"p", [], ["x"], []⟩)], 0) ∧
    "x" ∈ (⟨"p", [], ["x"], []⟩ : Pkg).provides ∧
    repoLookup (build_package_dict [⟨"p", [], ["x"], []⟩]).1 "x" = none :=
  ⟨rfl, by decide, rfl⟩

theorem indexInsert_count_mono (package : Pkg) :
    ∀ (names : List String) (acc : PkgRepo × Nat),
      acc.2 ≤ (names.foldl
        (fun acc2 n =>
          (dictSet acc2.1 n package,
           if (repoLookup acc2.1 n).isSome then acc2.2 + 1 else acc2.2)) acc).2 := by
  intro names
  induction names with
  | nil => intro acc; exact le_refl _
  | cons n rest ih =>
    intro acc
    rw [List.foldl_cons]
    refine le_trans ?_ (ih _)
    dsimp only
    split
    · omega
    · exact le_refl _

theorem indexInsert_count_le (acc : PkgRepo × Nat) (p : Pkg) :
    acc.2 ≤ (indexInsert acc p).2 := by
  unfold indexInsert
  exact indexInsert_count_mono p _ acc

theorem foldl_indexInsert_count_mono :
    ∀ (results : List Pkg) (acc : PkgRepo × Nat),
      acc.2 ≤ (results.foldl indexInsert acc).2 := by
  intro results
  induction results with
  | nil => intro acc; exact le_refl _
  | cons p rest ih =>
    intro acc
    rw [List.foldl_cons]
    exact le_trans (indexInsert_count_le acc p) (ih _)

theorem indexInsert_count_incr (package : Pkg) :
    ∀ (names : List String) (acc : PkgRepo × Nat) (m : String),
      m ∈ names → (repoLookup acc.1 m).isSome →
      acc.2 + 1 ≤ (names.foldl
        (fun acc2 n =>
          (dictSet acc2.1 n package,
           if (repoLookup acc2.1 n).isSome then acc2.2 + 1 else acc2.2)) acc).2 := by
  intro names
  induction names with
  | nil => intro acc m hm; cases hm
  | cons n rest ih =>
    intro acc m hm hsome
    rw [List.foldl_cons]
    rcases List.mem_cons.1 hm with rfl | hm'
    · refine le_trans ?_ (indexInsert_count_mono package rest _)
      dsimp only
      rw [if_pos hsome]
    · have hsome' : (repoLookup (dictSet acc.1 n package) m).isSome := by
        rw [repoLookup_dictSet acc.1]
        split
        · rfl
        · exact hsome
      have hih := ih (dictSet acc.1 n package,
          if (repoLookup acc.1 n).isSome then acc.2 + 1 else acc.2) m hm' hsome'
      refine le_trans ?_ hih
      dsimp only
      split <;> omega

theorem foldl_indexInsert_count_incr :
    ∀ (results : List Pkg) (acc : PkgRepo × Nat) (p2 : Pkg) (m : String),
      p2 ∈ results → covers p2 m = true → (repoLookup acc.1 m).isSome →
      acc.2 + 1 ≤ (results.foldl indexInsert acc).2 := by
  intro results
  induction results with
  | nil => intro acc p2 m hm _ _; cases hm
  | cons p rest ih =>
    intro acc p2 m hmem hcov hsome
    rw [List.foldl_cons]
    rcases List.mem_cons.1 hmem with rfl | hmem'
    · refine le_trans ?_ (foldl_indexInsert_count_mono rest _)
      exact indexInsert_count_incr p2 _ acc m (by simpa [covers] using hcov) hsome
    · have hsome' : (repoLookup (indexInsert acc p).1 m).isSome := by
        unfold indexInsert
        rw [indexInsert_lookup p]
        split
        · rfl
        · exact hsome
      have hle := indexInsert_count_le acc p
      have hih := ih (indexInsert acc p) p2 m hmem' hcov hsome'
      omega

theorem warn_aux :
    ∀ (results : List Pkg) (acc : PkgRepo × Nat) (p1 p2 : Pkg) (m : String),
      p1 ∈ results → p2 ∈ results → p1 ≠ p2 →
      covers p1 m = true → covers p2 m = true →
      acc.2 + 1 ≤ (results.foldl indexInsert acc).2 := by
  intro results
  induction results with
  | nil => intro acc p1 p2 m h1 _ _ _ _; cases h1
  | cons p rest ih =>
    intro acc p1 p2 m h1 h2 hne hc1 hc2
    rw [List.foldl_cons]
    have hsomeAfter : ∀ q : Pkg, covers q m = true →
        (repoLookup (indexInsert acc q).1 m).isSome := by
      intro q hq
      unfold indexInsert
      rw [indexInsert_lookup q, if_pos (by simpa [covers] using hq)]
      rfl
    rcases List.mem_cons.1 h1 with rfl | h1'
    · have h2' : p2 ∈ rest := by
        rcases List.mem_cons.1 h2 with rfl | h
        · exact absurd rfl hne
        · exact h
      refine le_trans ?_ (foldl_indexInsert_count_incr rest _ p2 m h2' hc2 (hsomeAfter p1 hc1))
      have := indexInsert_count_le acc p1
      omega
    · rcases List.mem_cons.1 h2 with rfl | h2'
      · refine le_trans ?_ (foldl_indexInsert_count_incr rest _ p1 m h1' hc1 (hsomeAfter p2 hc2))
        have := indexInsert_count_le acc p2
        omega
      · have hmono := indexInsert_count_le acc p
        have := ih (indexInsert acc p) p1 p2 m h1' h2' hne hc1 hc2
        omega

/-- C9 (amended): after a full scan the global name-to-recipe dictionary
maps, for every parsed recipe, the recipe's own name and every `replaces`
alias — but *not* its `provides` aliases, contrary to the claim — to a
recipe exposing that name; the binding is the last-processed recipe
exposing the name (later entries override earlier ones), and when two
distinct recipes expose the same name at least one override warning is
logged. -/
theorem c9_theorem :
    (∀ (results : List Pkg) (m : String),
        repoLookup (build_package_dict results).1 m =
          results.reverse.find? (fun q => covers q m)) ∧
    (∀ (results : List Pkg) (p : Pkg) (m : String),
        p ∈ results → covers p m = true →
        ∃ q, q ∈ results ∧ covers q m = true ∧
          repoLookup (build_package_dict results).1 m = some q) ∧
    (∀ (results : List Pkg) (p1 p2 : Pkg) (m : String),
        p1 ∈ results → p2 ∈ results → p1 ≠ p2 →
        covers p1 m = true → covers p2 m = true →
        1 ≤ (build_package_dict results).2) := by
  have hmain : ∀ (results : List Pkg) (m : String),
      repoLookup (build_package_dict results).1 m =
        results.reverse.find? (fun q => covers q m) := by
    intro results m
    unfold build_package_dict
    rw [build_dict_lookup_aux results ([], 0) m]
    cases results.reverse.find? (fun q => covers q m) <;> rfl
  refine ⟨hmain, ?_, ?_⟩
  · intro results p m hp hc
    have hsome : (results.reverse.find? (fun q => covers q m)).isSome :=
      List.find?_isSome.2 ⟨p, List.mem_reverse.2 hp, hc⟩
    cases hf : results.reverse.find? (fun q => covers q m) with
    | none => rw [hf] at hsome; cases hsome
    | some q =>
      have hqcov : covers q m = true := by
        have h := List.find?_some hf
        simpa using h
      exact ⟨q, List.mem_reverse.1 (List.mem_of_find?_eq_some hf),
        hqcov, (hmain results m).trans hf⟩
  · intro results p1 p2 m h1 h2 hne hc1 hc2
    have := warn_aux results ([], 0) p1 p2 m h1 h2 hne hc1 hc2
    simpa [build_package_dict] using this

/-- Witness for C9: the amended theorem applied at a concrete collision —
two recipes named `a` and `b` where `b` replaces `a`: the binding for `a`
is the later recipe and one warning is logged. -/
theorem c9_witness :
    repoLookup (build_package_dict [⟨"a", [], [], []⟩, ⟨"b", [], [], ["a"]⟩]).1 "a" =
      some ⟨"b", [], [], ["a"]⟩ ∧
    1 ≤ (build_package_dict [⟨"a", [], [], []⟩, ⟨"b", [], [], ["a"]⟩]).2 := by
  constructor
  · rw [c9_theorem.1 [⟨"a", [], [], []⟩, ⟨"b", [], [], ["a"]⟩] "a"]
    rfl
  · exact c9_theorem.2.2 [⟨"a", [], [], []⟩, ⟨"b", [], [], ["a"]⟩]
      ⟨"a", [], [], []⟩ ⟨"b", [], [], ["a"]⟩ "a"
      (by decide) (by decide) (by decide) (by decide) (by decide)

/-! ## SRCINFO cache: `SrcinfoMetaFile.handle_directory` (packages/srcinfo_cache.py)

The cache logic is embedded over an explicit picture of one recipe
directory (`PkgDir`: contents of `PKGBUILD`, `SRCINFO` and the parsed
`srcinfo_meta.json`, each `none` when missing — a malformed json file is
identified with a missing one, since `parse_existing` fails on both and
`handle_directory` catches exactly that failure).  The two external
effects are parameters of an `Env`: `sha` is the SHA-256 of a file's
contents (`utils.sha256sum` hashes the file at a path; the directory
state determines the contents, so hashing contents is the same map), and
`printsrcinfo` is the `makepkg --printsrcinfo` subprocess, mapping the
`PKGBUILD` contents to the captured stdout (`none` = nonzero exit, which
the code turns into an exception).  Composite operations return the
updated metadata, the SRCINFO lines, the updated directory state and the
number of subprocess (`run_cmd`) invocations.  The filename constants
come from `constants.py` (`SRCINFO_CHECKSUM_FILES = ['PKGBUILD',
SRCINFO_FILE]`, with `SRCINFO_FILE = 'SRCINFO'` per the spec's on-disk
layout, the constant itself not being in the excerpted sources). -/

/-- The persisted fields of `srcinfo_meta.json` as `parse_existing`
yields them.  Python distinguishes a missing dict key from a key bound
to `None` (`'build_mode' not in metadata`), hence the presence flags
next to the optional values.  `src_initialised` is dropped: it is
defaulted, never read, by the code under study.  Checksums are the
insertion-ordered association list of the Python dict. -/
structure MetaData where
  checksums : List (String × String)
  hasBuildMode : Bool
  buildMode : Option String
  hasBuildNodeps : Bool
  buildNodeps : Option Bool
deriving DecidableEq

/-- State of one recipe directory: the three files `handle_directory`
touches, each `none` when absent (for the metadata json: absent or
unparsable). -/
structure PkgDir where
  pkgbuild : Option String
  srcinfo : Option String
  metaJson : Option MetaData
deriving DecidableEq

/-- In-memory `SrcinfoMetaFile`: the data plus the private `_changed`
flag (filtered out of the json on `write`). -/
structure SMeta where
  data : MetaData
  changed : Bool
deriving DecidableEq

/-- External effects: content hashing and the `makepkg --printsrcinfo`
subprocess. -/
structure Env where
  sha : String → String
  printsrcinfo : Option String → Option String

/-- Failures `handle_directory` can propagate: a failed `makepkg`
(srcinfo_cache.py line 159), a missing file opened without a guard, and
the `assert self.checksums` of `validate_checksums` (line 181). -/
inductive CacheErr where
  | makepkgFailed
  | fileMissing
  | assertFailed
deriving DecidableEq

def SRCINFO_CHECKSUM_FILES : List String := ["PKGBUILD", "SRCINFO"]

/-- Contents of a checksummed file in the directory. -/
def fileContents (d : PkgDir) (name : String) : Option String :=
  if name = "PKGBUILD" then d.pkgbuild
  else if name = "SRCINFO" then d.srcinfo
  else none

/-- Python dict lookup on the association-list model. -/
def lookupD (d : List (String × String)) (k : String) : Option String :=
  (d.find? (fun e => e.1 = k)).map (fun e => e.2)

def isQuote (c : Char) : Bool := c = '"' ∨ c = '\''

/-- Python `val.strip("\x22'")`: drop quote characters from both ends. -/
def stripQuotes (s : String) : String :=
  String.mk (((s.data.dropWhile isQuote).reverse.dropWhile isQuote).reverse)

/-- The `refresh_build_fields` parsing loop (srcinfo_cache.py lines
135-145): over the PKGBUILD lines, skip lines not starting with `_` or
lacking `=`; split at the first `=`; strip quotes; `_mode` sets the
build mode, `_nodeps` compares the lowered value with `true`; later
assignments win. -/
def parseBuildFields (content : String) : Option String × Option Bool :=
  (content.splitOn "\n").foldl
    (fun acc line =>
      if ¬ line.startsWith "_" then acc
      else
        match line.splitOn "=" with
        | [] => acc
        | [_] => acc
        | key :: rest =>
          let val := stripQuotes (String.intercalate "=" rest)
          if key = "_mode" then (some val, acc.2)
          else if key = "_nodeps" then (acc.1, some (val.toLower = "true"))
          else acc)
    (none, none)

/-- `refresh_build_fields` (lines 130-145): re-reads the PKGBUILD (open
raises when it is missing) and overwrites both build fields, making both
keys present. -/
def refresh_build_fields (self : SMeta) (d : PkgDir) : Except CacheErr SMeta :=
  match d.pkgbuild with
  | none => .error .fileMissing
  | some content =>
    let f := parseBuildFields content
    .ok { self with data :=
      { self.data with
        hasBuildMode := true, buildMode := f.1,
        hasBuildNodeps := true, buildNodeps := f.2 } }

/-- `refresh_checksums` (lines 116-128): rehash both checksummed files
(`sha256sum` opens them, raising when one is missing), replace the dict
and set `_changed` when it differs from the old one (dict equality
modelled as equality of the insertion-ordered lists). -/
def refresh_checksums (env : Env) (self : SMeta) (d : PkgDir) : Except CacheErr SMeta :=
  match d.pkgbuild, d.srcinfo with
  | some pb, some si =>
    let fresh := [("PKGBUILD", env.sha pb), ("SRCINFO", env.sha si)]
    .ok { data := { self.data with checksums := fresh },
          changed := self.changed || decide (fresh ≠ self.data.checksums) }
  | _, _ => .error .fileMissing

/-- `refresh_srcinfo` (lines 147-163): run `makepkg --printsrcinfo`
(one subprocess), raise on nonzero exit, write the captured stdout to
the SRCINFO file and return its lines. -/
def refresh_srcinfo (env : Env) (d : PkgDir) : Except CacheErr (List String × PkgDir) :=
  match env.printsrcinfo d.pkgbuild with
  | none => .error .makepkgFailed
  | some output => .ok (output.splitOn "\n", { d with srcinfo := some output })

/-- `read_srcinfo_file` (lines 165-168): read the SRCINFO lines from
disk; open raises when the file is missing. -/
def read_srcinfo_file (d : PkgDir) : Except CacheErr (List String) :=
  match d.srcinfo with
  | none => .error .fileMissing
  | some c => .ok (c.splitOn "\n")

/-- The loop body of `validate_checksums` (lines 182-194): for each
checksummed file, fail when the stored dict lacks the key, the file is
missing, or the hash differs. -/
def validateAux (env : Env) (self : SMeta) (d : PkgDir) : List String → Bool
  | [] => true
  | f :: rest =>
    match lookupD self.data.checksums f with
    | none => false
    | some c =>
      match fileContents d f with
      | none => false
      | some content =>
        if env.sha content = c then validateAux env self d rest else false

/-- `validate_checksums` (lines 178-195): `assert self.checksums` (an
empty dict raises), then check both files. -/
def validate_checksums (env : Env) (self : SMeta) (d : PkgDir) : Except CacheErr Bool :=
  if self.data.checksums = [] then .error .assertFailed
  else .ok (validateAux env self d SRCINFO_CHECKSUM_FILES)

/-- `refresh_all` (lines 170-176): regenerate the SRCINFO (one
subprocess), rehash, re-extract the build fields, and write the json
when asked. -/
def refresh_all (env : Env) (self : SMeta) (d : PkgDir) (write : Bool) :
    Except CacheErr (SMeta × List String × PkgDir × Nat) :=
  match refresh_srcinfo env d with
  | .error e => .error e
  | .ok (lines, d1) =>
    match refresh_checksums env self d1 with
    | .error e => .error e
    | .ok self1 =>
      match refresh_build_fields self1 d1 with
      | .error e => .error e
      | .ok self2 =>
        let d2 := if write then { d1 with metaJson := some self2.data } else d1
        .ok (self2, lines, d2, 1)

/-- `generate_new` (lines 74-84): a fresh metadata object (all keys
present, empty checksums, `_changed` set) run through `refresh_all`.
Note the code drops its `write` parameter on the floor (line 84 calls
`s.refresh_all()` with the default `write=True`), which the model
reproduces. -/
def generate_new (env : Env) (d : PkgDir) ( w : Bool) :
    Except CacheErr (SMeta × List String × PkgDir × Nat) :=
  let _ := w
  refresh_all env
    { data :=
      { checksums := [], hasBuildMode := true, buildMode := some "",
        hasBuildNodeps := true, buildNodeps := none },
      changed := true }
    d true

/-- `handle_directory` (lines 87-114): parse the cached json (failure →
`generate_new`); regenerate the SRCINFO first when only it is missing;
validate checksums (mismatch → `generate_new`); on a hit without
`force_refresh` return the cached entry and the lines from disk,
re-extracting the build fields only when one of the keys is absent;
with `force_refresh` run `refresh_all`. -/
def handle_directory (env : Env) (d : PkgDir) (force_refresh : Bool) (write : Bool) :
    Except CacheErr (SMeta × List String × PkgDir × Nat) :=
  match d.metaJson with
  | none => generate_new env d write
  | some md =>
    let metadata : SMeta := { data := md, changed := false }
    let step1 : Except CacheErr (Option (List String) × PkgDir × Nat) :=
      match d.srcinfo with
      | none =>
        match refresh_srcinfo env d with
        | .error e => .error e
        | .ok (lines, d1) => .ok (some lines, d1, 1)
      | some _ => .ok (none, d, 0)
    match step1 with
    | .error e => .error e
    | .ok (linesOpt, d1, n1) =>
      match validate_checksums env metadata d1 with
      | .error e => .error e
      | .ok valid =>
        if valid = false then
          match generate_new env d1 write with
          | .error e => .error e
          | .ok (m, l, d2, n2) => .ok (m, l, d2, n1 + n2)
        else if force_refresh = false then
          match (match linesOpt with
                 | some l => Except.ok l
                 | none => read_srcinfo_file d1) with
          | .error e => .error e
          | .ok lines =>
            if metadata.data.hasBuildMode && metadata.data.hasBuildNodeps then
              .ok (metadata, lines, d1, n1)
            else
              match refresh_build_fields metadata d1 with
              | .error e => .error e
              | .ok m2 => .ok (m2, lines, d1, n1)
        else
          match refresh_all env metadata d1 write with
          | .error e => .error e
          | .ok (m, l, d2, n2) => .ok (m, l, d2, n1 + n2)

/-- The metadata produced by a regeneration over PKGBUILD contents `pb`
whose `makepkg --printsrcinfo` output is `out`: fresh checksums of both
files and build fields re-extracted from the PKGBUILD. -/
def regenData (env : Env) (pb out : String) : MetaData :=
  { checksums := [("PKGBUILD", env.sha pb), ("SRCINFO", env.sha out)],
    hasBuildMode := true, buildMode := (parseBuildFields pb).1,
    hasBuildNodeps := true, buildNodeps := (parseBuildFields pb).2 }

/-- C6: the `handle_directory` decision tree.  (1) Cache hit: with a
parsed metadata entry whose stored checksums match the on-disk PKGBUILD
and SRCINFO (and both build-field keys present), `force_refresh=false`
returns the cached entry and the SRCINFO lines from disk with zero
subprocess invocations and the directory untouched.  (2) Absent or
malformed `srcinfo_meta.json`: regenerate — one `makepkg
--printsrcinfo` call, SRCINFO and checksums rewritten, build fields
re-extracted.  (3) A mismatching stored PKGBUILD checksum: regenerate
likewise.  (4) Only the SRCINFO file missing with a PKGBUILD present:
the SRCINFO is regenerated first (one subprocess) and then validated,
returning the cached entry when the stored checksums match the PKGBUILD
and the regenerated SRCINFO.  (5) `force_refresh=true` on a valid
cache: regenerate anyway (one subprocess, fresh checksums). -/
theorem c6_srcinfo_cache_decision :
    (∀ (env : Env) (pb si : String) (md : MetaData),
        lookupD md.checksums "PKGBUILD" = some (env.sha pb) →
        lookupD md.checksums "SRCINFO" = some (env.sha si) →
        md.checksums ≠ [] →
        md.hasBuildMode = true →
        md.hasBuildNodeps = true →
        handle_directory env ⟨some pb, some si, some md⟩ false true =
          .ok (⟨md, false⟩, si.splitOn "\n", ⟨some pb, some si, some md⟩, 0)) ∧
    (∀ (env : Env) (pb out : String) (siOpt : Option String) (f w : Bool),
        env.printsrcinfo (some pb) = some out →
        handle_directory env ⟨some pb, siOpt, none⟩ f w =
          .ok (⟨regenData env pb out, true⟩, out.splitOn "\n",
               ⟨some pb, some out, some (regenData env pb out)⟩, 1)) ∧
    (∀ (env : Env) (pb si out c : String) (md : MetaData) (f w : Bool),
        lookupD md.checksums "PKGBUILD" = some c →
        c ≠ env.sha pb →
        md.checksums ≠ [] →
        env.printsrcinfo (some pb) = some out →
        handle_directory env ⟨some pb, some si, some md⟩ f w =
          .ok (⟨regenData env pb out, true⟩, out.splitOn "\n",
               ⟨some pb, some out, some (regenData env pb out)⟩, 1)) ∧
    (∀ (env : Env) (pb out : String) (md : MetaData),
        env.printsrcinfo (some pb) = some out →
        lookupD md.checksums "PKGBUILD" = some (env.sha pb) →
        lookupD md.checksums "SRCINFO" = some (env.sha out) →
        md.checksums ≠ [] →
        md.hasBuildMode = true →
        md.hasBuildNodeps = true →
        handle_directory env ⟨some pb, none, some md⟩ false true =
          .ok (⟨md, false⟩, out.splitOn "\n", ⟨some pb, some out, some md⟩, 1)) ∧
    (∀ (env : Env) (pb si out : String) (md : MetaData),
        lookupD md.checksums "PKGBUILD" = some (env.sha pb) →
        lookupD md.checksums "SRCINFO" = some (env.sha si) →
        md.checksums ≠ [] →
        env.printsrcinfo (some pb) = some out →
        handle_directory env ⟨some pb, some si, some md⟩ true true =
          .ok (⟨regenData env pb out,
                decide ([("PKGBUILD", env.sha pb), ("SRCINFO", env.sha out)] ≠ md.checksums)⟩,
               out.splitOn "\n",
               ⟨some pb, some out, some (regenData env pb out)⟩, 1)) := by
  refine ⟨?_, ?_, ?_, ?_, ?_⟩
  · intro env pb si md h1 h2 hne hbm hbn
    simp [handle_directory, validate_checksums, validateAux, SRCINFO_CHECKSUM_FILES,
          fileContents, read_srcinfo_file, hne, h1, h2, hbm, hbn]
  · intro env pb out siOpt f w hp
    simp [handle_directory, generate_new, refresh_all, refresh_srcinfo, refresh_checksums,
          refresh_build_fields, regenData, hp]
  · intro env pb si out c md f w h1 hcn hne hp
    have hcn' : ¬(env.sha pb = c) := fun h => hcn h.symm
    simp [handle_directory, validate_checksums, validateAux, SRCINFO_CHECKSUM_FILES,
          fileContents, generate_new, refresh_all, refresh_srcinfo, refresh_checksums,
          refresh_build_fields, regenData, hne, h1, hp, hcn']
  · intro env pb out md hp h1 h2 hne hbm hbn
    simp [handle_directory, refresh_srcinfo, validate_checksums, validateAux,
          SRCINFO_CHECKSUM_FILES, fileContents, hp, h1, h2, hne, hbm, hbn]
  · intro env pb si out md h1 h2 hne hp
    simp [handle_directory, validate_checksums, validateAux, SRCINFO_CHECKSUM_FILES,
          fileContents, refresh_all, refresh_srcinfo, refresh_checksums,
          refresh_build_fields, regenData, h1, h2, hne, hp]

/-- A concrete effect environment for exercising the cache logic. -/
def c6Env : Env :=
  { sha := fun s => String.append "#" s,
    printsrcinfo := fun o => Option.map (fun pb => String.append "out " pb) o }

/-- A concrete valid metadata entry for the directory with
PKGBUILD = "PB" and SRCINFO = "SI" under `c6Env`. -/
def c6Md : MetaData :=
  { checksums := [("PKGBUILD", "#PB"), ("SRCINFO", "#SI")],
    hasBuildMode := true, buildMode := some "host",
    hasBuildNodeps := true, buildNodeps := some false }

/-- Witness for C6: the cache-hit branch of the theorem at a concrete
directory — no subprocess call, cached entry and on-disk lines
returned, directory unchanged. -/
theorem c6_witness :
    handle_directory c6Env ⟨some "PB", some "SI", some c6Md⟩ false true =
      .ok (⟨c6Md, false⟩, "SI".splitOn "\n", ⟨some "PB", some "SI", some c6Md⟩, 0) :=
  c6_srcinfo_cache_decision.1 c6Env "PB" "SI" c6Md
    (by decide) (by decide) (by decide) (by decide) (by decide)

/-! ## Artifact freshness: `check_package_version_built` (packages/build.py 315-419)

The routine is embedded over an explicit filesystem state: paths are
component lists, on-disk files an association list path → content hash,
and the local repo databases an association list (arch, repo) → the DB
entry for the recipe under study (the routine reads and writes only its
own recipe's entry, so one entry per database suffices).  External
moving parts are an environment: the set of locally configured repos,
the contract of the external `repo-add` binary (which DB entry a
successful `repo-add <file>` produces, modelled as always succeeding),
and the HTTPS mirror's view of the recipe.  The scanned DB-entry shape
(`LocalPackage` with `resolved_url`, `filename`, the desc `SHA256SUM`)
and `init_local_repo` are spec-modelled: `build.py` imports
`LocalPackage`/`LocalRepo` classes and helpers that are not present in
the excerpted `src/` tree; their fields follow the spec's freshness
protocol (a DB entry records name, version, arch, filename, the
advertised `file://` location and a checksum).  Effects are counted in
a log of filesystem-modifying operations and subprocess invocations
(`repo-add`, `makepkg`); reads (`scan`, existence tests, hashing) are
free.  The source-setup state consumed by `setup_sources` is reduced to
the three booleans it branches on. -/

/-- A filesystem path as its components (`os.path.join` is `++`). -/
abbrev FsPath := List String

/-- `os.path.basename`. -/
def basename (p : FsPath) : String := p.getLastD ""

/-- `os.path.join(config.get_package_dir(arch), repo_name)`. -/
def package_dir (arch repo : String) : FsPath := ["packages", arch, repo]

/-- `os.path.join(config.get_path('pacman'), arch)`. -/
def pacman_cache_dir (arch : String) : FsPath := ["pacman", arch]

/-- `constants.ARCHES`. -/
def ARCHES : List String := ["x86_64", "aarch64"]

/-- Python `str.endswith`. -/
def strEndsWith (s suffix : String) : Bool := decide (suffix.data <:+ s.data)

/-- Python slicing `s[:-n]`. -/
def strDropRight (s : String) (n : Nat) : String :=
  String.mk (s.data.take (s.data.length - n))

/-- `strip_compression_extension` (build.py lines 242-247). -/
def strip_compression_extension (filename : String) : String :=
  if strEndsWith filename ".pkg.tar.zst" = true then strDropRight filename 4
  else if strEndsWith filename ".pkg.tar.xz" = true then strDropRight filename 3
  else if strEndsWith filename ".pkg.tar.gz" = true then strDropRight filename 3
  else if strEndsWith filename ".pkg.tar.bz2" = true then strDropRight filename 4
  else filename

/-- The `Pkgbuild` fields this routine consumes. -/
structure CpvPkg where
  name : String
  version : String
  repo : String
  arches : List String
deriving DecidableEq

/-- `Pkgbuild.get_filename` (pkgbuild.py lines 235-240). -/
def get_filename (pkg : CpvPkg) (arch : String) : String :=
  let arch2 := if pkg.arches.headD "" = "any" then "any" else arch
  pkg.name ++ "-" ++ pkg.version ++ "-" ++ arch2 ++ ".pkg.tar.zst"

/-- A scanned local repo DB entry for the recipe (spec-modelled
`LocalPackage`): version, architecture, advertised filename, advertised
on-disk location (`resolved_url` minus the `file://` prefix; `none`
covers an unset url and one from which no path can be split), and the
recorded `SHA256SUM` (`none`: key absent or empty). -/
structure DbEntry where
  version : String
  arch : String
  filename : String
  fileAt : Option FsPath
  sha256 : Option String
deriving DecidableEq

/-- The on-disk (and in-process source-cache) state the routine touches:
repo databases, files with their content hashes, which arches already
have the local repo skeleton (`init_prebuilts`/`init_local_repo`), and
the three source-cache facts `setup_sources` branches on
(`_changed`, `is_src_initialised`, `validate_checksums`). -/
structure FreshState where
  db : List ((String × String) × DbEntry)
  files : List (FsPath × String)
  prebuilt : List String
  srcChanged : Bool
  srcInit : Bool
  srcOk : Bool
deriving DecidableEq

/-- Count of filesystem-modifying operations and subprocess
invocations performed by a run. -/
structure CpvLog where
  writes : Nat
  subprocs : Nat
deriving DecidableEq

/-- The HTTPS mirror's entry for the recipe (`RemotePackage`). -/
structure RemotePkg where
  version : String
  filename : String
  hash : String
  available : Bool
deriving DecidableEq

/-- External contracts: the locally configured repos
(`get_kupfer_local(arch).repos`), the entry a successful
`repo-add` of a file produces in a database, and the remote mirror
state (`none`: repo unknown over HTTPS or recipe absent remotely). -/
structure CpvEnv where
  localRepos : List String
  repoAdd : String → String → FsPath → String → DbEntry
  remote : Option RemotePkg

/-- Python dict lookup on an association list. -/
def alistGet {α β : Type} [DecidableEq α] (l : List (α × β)) (k : α) : Option β :=
  (l.find? (fun e => e.1 = k)).map (fun e => e.2)

/-- Python dict assignment on an association list. -/
def alistSet {α β : Type} [DecidableEq α] (l : List (α × β)) (k : α) (v : β) :
    List (α × β) :=
  if (l.find? (fun e => e.1 = k)).isSome then
    l.map (fun e => if e.1 = k then (k, v) else e)
  else l ++ [(k, v)]

/-- Deletion from an association list (file removal). -/
def alistRemove {α β : Type} [DecidableEq α] (l : List (α × β)) (k : α) :
    List (α × β) :=
  l.filter (fun e => ¬ e.1 = k)

def lookupDb (db : List ((String × String) × DbEntry)) (k : String × String) :
    Option DbEntry := alistGet db k

def lookupFile (files : List (FsPath × String)) (p : FsPath) : Option String :=
  alistGet files p

/-- Failures `check_package_version_built` propagates (everything inside
the DB try-block is caught at line 369): the stripped-extension guard of
line 331 and the `assert local_repo` of line 404. -/
inductive CpvErr where
  | unknownExtension
  | assertLocalRepo
deriving DecidableEq

/-- `setup_sources` (build.py lines 457-488), reduced to its effect
shape: the lazy path (line 461-464) touches nothing; the full path runs
`makepkg --nobuild` in a build chroot (one subprocess; source trees
written), rewrites SRCINFO/checksums via `cache.refresh_all(write=True)`
and writes the `src_initialised` stamp — three file writes.  The
in-memory `_changed` flag is never cleared by any of these
(`JsonFile.write` does not reset it); `refresh_checksums` sets it when
the rehash differs from the stored sums. -/
def setup_sources (s : FreshState) (log : CpvLog) (lazy : Bool) : FreshState × CpvLog :=
  if lazy && !s.srcChanged && s.srcInit && s.srcOk then (s, log)
  else
    ({ s with srcInit := true, srcOk := true, srcChanged := s.srcChanged || !s.srcOk },
     { writes := log.writes + 3, subprocs := log.subprocs + 1 })

/-- `init_local_repo` as called from `add_file_to_repo` line 207 and
`init_prebuilts` (build.py lines 83-88): create the repo skeleton
(directories and empty databases) unless the arch is already
initialised — a write only the first time. -/
def init_local_repo_state (s : FreshState) (log : CpvLog) (arch : String) :
    FreshState × CpvLog :=
  if arch ∈ s.prebuilt then (s, log)
  else ({ s with prebuilt := arch :: s.prebuilt },
        { log with writes := log.writes + 1 })

/-- Lines 208-215 of `add_file_to_repo`: copy the file into the repo
directory unless it already is the target, optionally removing the
original.  Callers in this routine only pass files that exist, so the
hash read for the copy is total here. -/
def copy_into_repo (s : FreshState) (log : CpvLog) (file_path tgt : FsPath)
    (remove_original : Bool) : FreshState × CpvLog :=
  if file_path ≠ tgt then
    let h := (lookupFile s.files file_path).getD ""
    let sc := { s with files := alistSet s.files tgt h }
    let lc := { log with writes := log.writes + 1 }
    if remove_original then
      ({ sc with files := alistRemove sc.files file_path },
       { lc with writes := lc.writes + 1 })
    else (sc, lc)
  else (s, log)

/-- Lines 217-221 of `add_file_to_repo`: drop a same-named package file
from the pacman cache. -/
def drop_cache_file (s : FreshState) (log : CpvLog) (cache_file : FsPath) :
    FreshState × CpvLog :=
  if (lookupFile s.files cache_file).isSome then
    ({ s with files := alistRemove s.files cache_file },
     { log with writes := log.writes + 1 })
  else (s, log)

/-- `add_file_to_repo` (build.py lines 200-239): ensure the repo
skeleton, copy the file into the repo dir unless it is already there,
drop a same-named file from the pacman cache, and run `repo-add` (one
subprocess rewriting the database; modelled as always succeeding with
the entry given by the environment's contract). -/
def add_file_to_repo (env : CpvEnv) (s : FreshState) (log : CpvLog)
    (file_path : FsPath) (repo_name : String) (arch : String)
    (remove_original : Bool) : FreshState × CpvLog × FsPath :=
  let file_name := basename file_path
  let target := package_dir arch repo_name ++ [file_name]
  let t0 := init_local_repo_state s log arch
  let t1 := copy_into_repo t0.1 t0.2 file_path target remove_original
  let t2 := drop_cache_file t1.1 t1.2 (pacman_cache_dir arch ++ [file_name])
  let h2 := (lookupFile t2.1.files target).getD ""
  ({ t2.1 with db := alistSet t2.1.db (arch, repo_name) (env.repoAdd arch repo_name target h2) },
   { writes := t2.2.writes + 1, subprocs := t2.2.subprocs + 1 },
   target)

/-- `try_download_package` (build.py lines 278-312): reject when the
repo or recipe is unknown remotely, versions differ, or the filenames
differ beyond the compression extension; otherwise `acquire()` the
remote file (the download target carries the remote filename). -/
def try_download_package (env : CpvEnv) (pkg : CpvPkg) (filename : String) :
    Option (FsPath × String) :=
  match env.remote with
  | none => none
  | some r =>
    if r.version ≠ pkg.version then none
    else if r.filename ≠ filename ∧
        strip_compression_extension r.filename ≠ strip_compression_extension filename then
      none
    else if r.available then some (["downloads", r.filename], r.hash)
    else none

/-- The DB try-block (build.py lines 340-368): repo configured locally,
entry present, version equal, architecture admissible (`any` exactly
when the recipe's arches are `['any']`), advertised file present on
disk with its hash equal to the recorded checksum, and the stripped
filenames agreeing.  Any failure is caught at line 369, leaving
`missing = True`.  On success returns the advertised location and the
DB filename (lines 366-367). -/
def db_check (env : CpvEnv) (pkg : CpvPkg) (arch : String)
    (filename_stripped : String) (s : FreshState) : Option (FsPath × String) :=
  if pkg.repo ∈ env.localRepos then
    match lookupDb s.db (arch, pkg.repo) with
    | none => none
    | some e =>
      if e.version ≠ pkg.version then none
      else if ¬ (e.arch ∈ (if pkg.arches = ["any"] then ["any"] else [arch])) then none
      else
        match e.fileAt with
        | none => none
        | some filepath =>
          if filename_stripped ≠ strip_compression_extension e.filename then none
          else
            match lookupFile s.files filepath with
            | none => none
            | some h =>
              match e.sha256 with
              | none => none
              | some c => if h ≠ c then none else some (filepath, e.filename)
  else none

/-- The candidate selection of one probe-loop iteration (build.py lines
376-400), a pure function of the on-disk files: probe the channel
directory for `<stripped>.<ext>`; when absent fall back to the
`any`-arch filename in this and sibling arch channels (lines 379-393)
and then to an HTTPS download (lines 394-400).  Returns the candidate
path, the (possibly download-updated) filename, the `missing` flag, and
the downloaded file to materialise, if any. -/
def anyarch_candidate (pkg : CpvPkg) (arch : String) (fname : String)
    (fpath : FsPath) (missing : Bool) (files : List (FsPath × String)) :
    FsPath × Bool :=
  if (lookupFile files (package_dir arch pkg.repo ++ [fname])).isSome then
    (package_dir arch pkg.repo ++ [fname], false)
  else
    ARCHES.foldl
      (fun acc ra =>
        if ra = arch then acc
        else
          if (lookupFile files (package_dir ra pkg.repo ++ [fname])).isSome then
            (package_dir ra pkg.repo ++ [fname], false)
          else acc)
      (fpath, missing)

def probe_candidate (env : CpvEnv) (pkg : CpvPkg) (arch : String)
    (any_arch try_dl : Bool) (fpath : FsPath) (fname : String) (missing : Bool)
    (files : List (FsPath × String)) :
    FsPath × String × Bool × Option (FsPath × String) :=
  if (lookupFile files fpath).isSome then (fpath, fname, missing, none)
  else
    let t1 :=
      if any_arch then anyarch_candidate pkg arch fname fpath missing files
      else (fpath, missing)
    if try_dl && t1.2 then
      match try_download_package env pkg fname with
      | some ph => (ph.1, basename ph.1, false, some ph)
      | none => (t1.1, fname, t1.2, none)
    else (t1.1, fname, t1.2, none)

/-- Materialise a download in the state (`repo_pkg.acquire()` writing
the fetched file, build.py line 304 via line 395). -/
def apply_download (s : FreshState) (log : CpvLog) (dl : Option (FsPath × String)) :
    FreshState × CpvLog :=
  match dl with
  | some ph => ({ s with files := alistSet s.files ph.1 ph.2 },
                { log with writes := log.writes + 1 })
  | none => (s, log)

def probe_step (env : CpvEnv) (pkg : CpvPkg) (arch stripped : String)
    (any_arch try_dl : Bool) (ext : String) (missing : Bool) (fname : String)
    (s : FreshState) (log : CpvLog) :
    Except CpvErr (Bool × FsPath × String × FreshState × CpvLog) :=
  match probe_candidate env pkg arch any_arch try_dl
      (package_dir arch pkg.repo ++ [stripped ++ "." ++ ext]) fname missing s.files with
  | (file2, fname2, missing2, dl) =>
    let t := apply_download s log dl
    if (lookupFile t.1.files file2).isSome then
      let r := add_file_to_repo env t.1 t.2 file2 pkg.repo arch false
      if pkg.repo ∈ env.localRepos then
        .ok (false, file2, fname2, r.1, r.2.1)
      else .error .assertLocalRepo
    else .ok (missing2, file2, fname2, t.1, t.2)

/-- The `for ext in ['xz', 'zst']` loop with its `if not missing: break`
head (build.py lines 373-375). -/
def probe_exts (env : CpvEnv) (pkg : CpvPkg) (arch stripped : String)
    (any_arch try_dl : Bool) :
    List String → Bool → FsPath → String → FreshState → CpvLog →
    Except CpvErr (Bool × FsPath × String × FreshState × CpvLog)
  | [], missing, file, fname, s, log => .ok (missing, file, fname, s, log)
  | ext :: rest, missing, file, fname, s, log =>
    if missing = false then .ok (missing, file, fname, s, log)
    else
      match probe_step env pkg arch stripped any_arch try_dl ext missing fname s log with
      | .error e => .error e
      | .ok (m2, f2, fn2, s2, log2) =>
        probe_exts env pkg arch stripped any_arch try_dl rest m2 f2 fn2 s2 log2

/-- The `any`-arch propagation loop (build.py lines 407-418): for every
sibling arch lacking the file under its DB-advertised name, copy it
across and re-index. -/
def anyarch_propagate (env : CpvEnv) (pkg : CpvPkg) (arch : String)
    (file : FsPath) (fname : String) (s : FreshState) (log : CpvLog) :
    FreshState × CpvLog :=
  ARCHES.foldl
    (fun acc ra =>
      if ra = arch then acc
      else
        let copy_target := package_dir ra pkg.repo ++ [fname]
        if (lookupFile acc.1.files copy_target).isSome then acc
        else
          let r := add_file_to_repo env acc.1 acc.2 file pkg.repo ra false
          (r.1, r.2.1))
    (s, log)

/-- `check_package_version_built` (build.py lines 315-419). -/
def check_package_version_built (env : CpvEnv) (pkg : CpvPkg) (arch : String)
    (try_download refresh_sources : Bool) (s : FreshState) :
    Except CpvErr (Bool × FreshState × CpvLog) :=
  let t0 := if refresh_sources then setup_sources s ⟨0, 0⟩ true else (s, ⟨0, 0⟩)
  let filename := get_filename pkg arch
  let stripped := strip_compression_extension filename
  if strEndsWith stripped ".pkg.tar" = false then .error .unknownExtension
  else
    let any_arch := strEndsWith stripped "any.pkg.tar"
    let t1 :=
      if arch ∈ t0.1.prebuilt then t0
      else ({ t0.1 with prebuilt := arch :: t0.1.prebuilt },
            { t0.2 with writes := t0.2.writes + 1 })
    let start :=
      match db_check env pkg arch stripped t1.1 with
      | some fpfn => (false, fpfn.1, fpfn.2)
      | none => (true, ([] : FsPath), filename)
    match probe_exts env pkg arch stripped any_arch try_download ["xz", "zst"]
        start.1 start.2.1 start.2.2 t1.1 t1.2 with
    | .error e => .error e
    | .ok (missing, file, fname, s2, log2) =>
      let t3 :=
        if any_arch = true ∧ missing = false then
          anyarch_propagate env pkg arch file fname s2 log2
        else (s2, log2)
      .ok (!missing, t3.1, t3.2)

theorem alistGet_cons {α β : Type} [DecidableEq α] {k : α} {v : β} {l : List (α × β)}
    {m : α} :
    alistGet ((k, v) :: l) m = if k = m then some v else alistGet l m := by
  unfold alistGet
  by_cases hk : k = m
  · rw [List.find?_cons_of_pos _ (by simpa using hk), if_pos hk]
    rfl
  · rw [List.find?_cons_of_neg _ (by simpa using hk), if_neg hk]

theorem alistGet_isSome_find {α β : Type} [DecidableEq α] {d : List (α × β)} {n : α} :
    (alistGet d n).isSome = (d.find? (fun e => e.1 = n)).isSome := by
  unfold alistGet
  cases d.find? (fun e => e.1 = n) <;> rfl

theorem alistGet_map_override {α β : Type} [DecidableEq α] {n : α} {p : β} :
    ∀ (d : List (α × β)) (m : α),
      alistGet (d.map (fun e => if e.1 = n then (n, p) else e)) m =
        if m = n then (if (alistGet d n).isSome then some p else none)
        else alistGet d m := by
  intro d
  induction d with
  | nil =>
    intro m
    by_cases hm : m = n <;> simp [hm, alistGet]
  | cons e rest ih =>
    intro m
    obtain ⟨k, v⟩ := e
    by_cases hk : k = n <;> by_cases hm : m = n <;> by_cases hkm : k = m <;>
      simp_all [List.map_cons, alistGet_cons]

theorem alistGet_append_one {α β : Type} [DecidableEq α] {n : α} {p : β} :
    ∀ (d : List (α × β)) (m : α),
      alistGet (d ++ [(n, p)]) m =
        match alistGet d m with
        | some v => some v
        | none => if m = n then some p else none := by
  intro d
  induction d with
  | nil =>
    intro m
    show alistGet [(n, p)] m = if m = n then some p else none
    rw [alistGet_cons]
    by_cases hm : n = m
    · rw [if_pos hm, if_pos hm.symm]
    · rw [if_neg hm, if_neg (fun he => hm he.symm)]
      rfl
  | cons e rest ih =>
    intro m
    obtain ⟨k, v⟩ := e
    rw [List.cons_append, alistGet_cons, alistGet_cons]
    by_cases hk : k = m
    · rw [if_pos hk, if_pos hk]
    · rw [if_neg hk, if_neg hk, ih m]

theorem alistGet_alistSet {α β : Type} [DecidableEq α] {n m : α} {p : β}
    (d : List (α × β)) :
    alistGet (alistSet d n p) m = if m = n then some p else alistGet d m := by
  unfold alistSet
  by_cases hpres : (d.find? (fun e => e.1 = n)).isSome
  · rw [if_pos hpres, alistGet_map_override d m]
    by_cases hm : m = n
    · have hs : (alistGet d n).isSome = true := by
        rw [alistGet_isSome_find]
        exact hpres
      rw [if_pos hm, if_pos hm, if_pos hs]
    · rw [if_neg hm, if_neg hm]
  · rw [if_neg hpres, alistGet_append_one d m]
    have hnone : alistGet d n = none := by
      cases hl : alistGet d n with
      | none => rfl
      | some v =>
        exfalso
        apply hpres
        rw [← alistGet_isSome_find, hl]
        rfl
    cases hl : alistGet d m with
    | none => rfl
    | some v =>
      by_cases hm : m = n
      · subst hm
        rw [hnone] at hl
        cases hl
      · rw [if_neg hm, if_neg hm]

theorem alistGet_alistRemove_ne {α β : Type} [DecidableEq α] {k m : α}
    (h : m ≠ k) :
    ∀ (d : List (α × β)), alistGet (alistRemove d k) m = alistGet d m := by
  intro d
  induction d with
  | nil => rfl
  | cons e rest ih =>
    obtain ⟨a, v⟩ := e
    by_cases hak : a = k
    · have hdrop : alistRemove ((a, v) :: rest) k = alistRemove rest k := by
        simp [alistRemove, List.filter_cons, hak]
      have hne : ¬ a = m := fun he => h (he ▸ hak)
      rw [hdrop, ih, alistGet_cons, if_neg hne]
    · have hkeep : alistRemove ((a, v) :: rest) k = (a, v) :: alistRemove rest k := by
        simp [alistRemove, List.filter_cons, hak]
      rw [hkeep, alistGet_cons, alistGet_cons]
      by_cases ham : a = m
      · rw [if_pos ham, if_pos ham]
      · rw [if_neg ham, if_neg ham, ih]

theorem str_data_append (a b : String) : (a ++ b).data = a.data ++ b.data := by
  cases a
  cases b
  rfl

theorem strEndsWith_true_iff {s t : String} :
    strEndsWith s t = true ↔ t.data <:+ s.data := by
  simp [strEndsWith]

theorem strEndsWith_append (a t : String) : strEndsWith (a ++ t) t = true := by
  rw [strEndsWith_true_iff, str_data_append]
  exact List.suffix_append _ _

theorem basename_append_one (l : FsPath) (x : String) : basename (l ++ [x]) = x := by
  simp [basename]

theorem suffix_concat_eq {l t : List Char} {c d : Char}
    (h : (t.concat c) <:+ (l.concat d)) : c = d := by
  obtain ⟨pre, hp⟩ := h
  have h1 : (l.concat d).getLast? = some d := by
    rw [List.concat_eq_append]
    exact List.getLast?_concat _
  have h2 : (pre ++ t.concat c).getLast? = some c := by
    rw [List.concat_eq_append, ← List.append_assoc]
    exact List.getLast?_concat _
  rw [← hp] at h1
  rw [h2] at h1
  exact Option.some.inj h1

theorem strip_of_zst (a : String) :
    strip_compression_extension (a ++ ".pkg.tar.zst") = a ++ ".pkg.tar" := by
  unfold strip_compression_extension
  rw [if_pos (strEndsWith_append a ".pkg.tar.zst")]
  apply String.ext
  show ((a ++ ".pkg.tar.zst").data.take ((a ++ ".pkg.tar.zst").data.length - 4)) =
    (a ++ ".pkg.tar").data
  rw [str_data_append, str_data_append]
  have hsplit : (".pkg.tar.zst" : String).data =
      (".pkg.tar" : String).data ++ ('.' :: 'z' :: 's' :: 't' :: []) := by decide
  rw [hsplit, ← List.append_assoc]
  have hlen : (a.data ++ (".pkg.tar" : String).data ++
      ('.' :: 'z' :: 's' :: 't' :: [])).length - 4 =
      (a.data ++ (".pkg.tar" : String).data).length := by
    simp only [List.length_append, List.length_cons, List.length_nil]
    omega
  rw [hlen]
  exact List.take_left _ _

theorem strip_stem_zst (a : String) (h : strEndsWith a ".pkg.tar" = true) :
    strip_compression_extension (a ++ "." ++ "zst") = a := by
  obtain ⟨pre, hp⟩ := strEndsWith_true_iff.1 h
  unfold strip_compression_extension
  have hcat : (".pkg.tar" : String).data ++
      (("." : String).data ++ ("zst" : String).data) =
      (".pkg.tar.zst" : String).data := by decide
  have h1 : strEndsWith (a ++ "." ++ "zst") ".pkg.tar.zst" = true := by
    rw [strEndsWith_true_iff, str_data_append, str_data_append, ← hp,
        List.append_assoc, List.append_assoc, hcat]
    exact List.suffix_append _ _
  rw [if_pos h1]
  apply String.ext
  show ((a ++ "." ++ "zst").data.take ((a ++ "." ++ "zst").data.length - 4)) = a.data
  rw [str_data_append, str_data_append, List.append_assoc]
  have hz : (("." : String).data ++ ("zst" : String).data) = ['.', 'z', 's', 't'] := by
    decide
  rw [hz]
  have hlen : (a.data ++ ['.', 'z', 's', 't']).length - 4 = a.data.length := by
    simp only [List.length_append, List.length_cons, List.length_nil]
    omega
  rw [hlen]
  exact List.take_left _ _

theorem strip_stem_xz (a : String) (h : strEndsWith a ".pkg.tar" = true) :
    strip_compression_extension (a ++ "." ++ "xz") = a := by
  obtain ⟨pre, hp⟩ := strEndsWith_true_iff.1 h
  unfold strip_compression_extension
  have hxz : (("." : String).data ++ ("xz" : String).data) = ['.', 'x', 'z'] := by
    decide
  have hnot : strEndsWith (a ++ "." ++ "xz") ".pkg.tar.zst" = false := by
    rw [Bool.eq_false_iff]
    intro hc
    have hsuf := strEndsWith_true_iff.1 hc
    rw [str_data_append, str_data_append, List.append_assoc, hxz] at hsuf
    have hx : a.data ++ ['.', 'x', 'z'] = (a.data ++ ['.', 'x']).concat 'z' := by
      rw [List.concat_eq_append, List.append_assoc]
      rfl
    have hz : (".pkg.tar.zst" : String).data =
        (".pkg.tar.zs" : String).data.concat 't' := by decide
    rw [hx, hz] at hsuf
    exact absurd (suffix_concat_eq hsuf) (by decide)
  have hcat : (".pkg.tar" : String).data ++
      (("." : String).data ++ ("xz" : String).data) =
      (".pkg.tar.xz" : String).data := by decide
  have h2 : strEndsWith (a ++ "." ++ "xz") ".pkg.tar.xz" = true := by
    rw [strEndsWith_true_iff, str_data_append, str_data_append, ← hp,
        List.append_assoc, List.append_assoc, hcat]
    exact List.suffix_append _ _
  rw [if_neg (by simp [hnot]), if_pos h2]
  apply String.ext
  show ((a ++ "." ++ "xz").data.take ((a ++ "." ++ "xz").data.length - 3)) = a.data
  rw [str_data_append, str_data_append, List.append_assoc, hxz]
  have hlen : (a.data ++ ['.', 'x', 'z']).length - 3 = a.data.length := by
    simp only [List.length_append, List.length_cons, List.length_nil]
    omega
  rw [hlen]
  exact List.take_left _ _

theorem stripped_filename (pkg : CpvPkg) (arch : String) :
    strip_compression_extension (get_filename pkg arch) =
      pkg.name ++ "-" ++ pkg.version ++ "-" ++
        (if pkg.arches.headD "" = "any" then "any" else arch) ++ ".pkg.tar" :=
  strip_of_zst _

theorem stripped_ends (pkg : CpvPkg) (arch : String) :
    strEndsWith (strip_compression_extension (get_filename pkg arch)) ".pkg.tar" = true := by
  rw [stripped_filename]
  exact strEndsWith_append _ _

theorem cache_ne_target (arch rn : String) (bn bn2 : String) :
    pacman_cache_dir arch ++ [bn] ≠ package_dir arch rn ++ [bn2] := by
  intro h
  have hh := congrArg (fun l : List String => l.headD "") h
  simp only [pacman_cache_dir, package_dir, List.cons_append, List.headD_cons] at hh
  exact absurd hh (by decide)

theorem init_local_repo_fields (s : FreshState) (log : CpvLog) (arch : String) :
    (init_local_repo_state s log arch).1.files = s.files ∧
    (init_local_repo_state s log arch).1.db = s.db ∧
    arch ∈ (init_local_repo_state s log arch).1.prebuilt ∧
    (init_local_repo_state s log arch).1.srcChanged = s.srcChanged ∧
    (init_local_repo_state s log arch).1.srcInit = s.srcInit ∧
    (init_local_repo_state s log arch).1.srcOk = s.srcOk := by
  by_cases h : arch ∈ s.prebuilt <;> simp [init_local_repo_state, h]

theorem copy_into_repo_fields (s : FreshState) (log : CpvLog) (fp tgt : FsPath) :
    ((copy_into_repo s log fp tgt false).1.files =
      if fp = tgt then s.files
      else alistSet s.files tgt ((lookupFile s.files fp).getD "")) ∧
    (copy_into_repo s log fp tgt false).1.db = s.db ∧
    (copy_into_repo s log fp tgt false).1.prebuilt = s.prebuilt ∧
    (copy_into_repo s log fp tgt false).1.srcChanged = s.srcChanged ∧
    (copy_into_repo s log fp tgt false).1.srcInit = s.srcInit ∧
    (copy_into_repo s log fp tgt false).1.srcOk = s.srcOk := by
  by_cases h : fp = tgt <;> simp [copy_into_repo, h]

theorem drop_cache_fields (s : FreshState) (log : CpvLog) (cf : FsPath) :
    ((drop_cache_file s log cf).1.files =
      if (lookupFile s.files cf).isSome then alistRemove s.files cf else s.files) ∧
    (drop_cache_file s log cf).1.db = s.db ∧
    (drop_cache_file s log cf).1.prebuilt = s.prebuilt ∧
    (drop_cache_file s log cf).1.srcChanged = s.srcChanged ∧
    (drop_cache_file s log cf).1.srcInit = s.srcInit ∧
    (drop_cache_file s log cf).1.srcOk = s.srcOk := by
  by_cases h : (lookupFile s.files cf).isSome <;> simp [drop_cache_file, h]

theorem add_file_spec (env : CpvEnv) (s : FreshState) (log : CpvLog)
    (fp : FsPath) (rn arch : String) (h0 : String)
    (hex : lookupFile s.files fp = some h0) :
    lookupDb (add_file_to_repo env s log fp rn arch false).1.db (arch, rn) =
      some (env.repoAdd arch rn (package_dir arch rn ++ [basename fp]) h0) ∧
    lookupFile (add_file_to_repo env s log fp rn arch false).1.files
      (package_dir arch rn ++ [basename fp]) = some h0 ∧
    arch ∈ (add_file_to_repo env s log fp rn arch false).1.prebuilt ∧
    (add_file_to_repo env s log fp rn arch false).1.srcChanged = s.srcChanged ∧
    (add_file_to_repo env s log fp rn arch false).1.srcInit = s.srcInit ∧
    (add_file_to_repo env s log fp rn arch false).1.srcOk = s.srcOk := by
  have hct' : package_dir arch rn ++ [basename fp] ≠ pacman_cache_dir arch ++ [basename fp] :=
    fun h => cache_ne_target arch rn (basename fp) (basename fp) h.symm
  obtain ⟨i1, i2, i3, i4, i5, i6⟩ := init_local_repo_fields s log arch
  obtain ⟨c1, c2, c3, c4, c5, c6⟩ :=
    copy_into_repo_fields (init_local_repo_state s log arch).1
      (init_local_repo_state s log arch).2 fp (package_dir arch rn ++ [basename fp])
  set t1 := copy_into_repo (init_local_repo_state s log arch).1
      (init_local_repo_state s log arch).2 fp (package_dir arch rn ++ [basename fp]) false
    with ht1
  obtain ⟨d1, d2, d3, d4, d5, d6⟩ :=
    drop_cache_fields t1.1 t1.2 (pacman_cache_dir arch ++ [basename fp])
  set t2 := drop_cache_file t1.1 t1.2 (pacman_cache_dir arch ++ [basename fp]) with ht2
  have hf1 : lookupFile t1.1.files (package_dir arch rn ++ [basename fp]) = some h0 := by
    rw [c1]
    by_cases hcp : fp = package_dir arch rn ++ [basename fp]
    · rw [if_pos hcp, i1, ← hcp, hex]
    · rw [if_neg hcp, i1, hex, lookupFile, alistGet_alistSet, if_pos rfl]
      rfl
  have hf2 : lookupFile t2.1.files (package_dir arch rn ++ [basename fp]) = some h0 := by
    rw [d1]
    by_cases hc : (lookupFile t1.1.files (pacman_cache_dir arch ++ [basename fp])).isSome
    · rw [if_pos hc]
      show alistGet _ _ = _
      rw [alistGet_alistRemove_ne hct']
      exact hf1
    · rw [if_neg hc]
      exact hf1
  have hdb : (add_file_to_repo env s log fp rn arch false).1.db =
      alistSet t2.1.db (arch, rn)
        (env.repoAdd arch rn (package_dir arch rn ++ [basename fp])
          ((lookupFile t2.1.files (package_dir arch rn ++ [basename fp])).getD "")) := rfl
  have hfiles : (add_file_to_repo env s log fp rn arch false).1.files = t2.1.files := rfl
  have hpre2 : (add_file_to_repo env s log fp rn arch false).1.prebuilt = t2.1.prebuilt := rfl
  have hs4 : (add_file_to_repo env s log fp rn arch false).1.srcChanged = t2.1.srcChanged := rfl
  have hs5 : (add_file_to_repo env s log fp rn arch false).1.srcInit = t2.1.srcInit := rfl
  have hs6 : (add_file_to_repo env s log fp rn arch false).1.srcOk = t2.1.srcOk := rfl
  refine ⟨?_, ?_, ?_, ?_, ?_, ?_⟩
  · rw [show lookupDb (add_file_to_repo env s log fp rn arch false).1.db (arch, rn) =
        alistGet (add_file_to_repo env s log fp rn arch false).1.db (arch, rn) from rfl,
      hdb, alistGet_alistSet, if_pos rfl, hf2]
    rfl
  · rw [hfiles]
    exact hf2
  · rw [hpre2, d3, c3]
    exact i3
  · rw [hs4, d4, c4, i4]
  · rw [hs5, d5, c5, i5]
  · rw [hs6, d6, c6, i6]

theorem probe_exts_break (env : CpvEnv) (pkg : CpvPkg) (arch stripped : String)
    (any_arch td : Bool) :
    ∀ (exts : List String) (f : FsPath) (fn : String) (s : FreshState) (log : CpvLog),
      probe_exts env pkg arch stripped any_arch td exts false f fn s log =
        .ok (false, f, fn, s, log) := by
  intro exts f fn s log
  cases exts with
  | nil => rfl
  | cons e r => simp [probe_exts]

theorem anyarch_noop (env : CpvEnv) (pkg : CpvPkg) (arch : String)
    (file : FsPath) (fname : String) (s : FreshState) (log : CpvLog)
    (hsib : ∀ ra ∈ ARCHES, ra ≠ arch →
      (lookupFile s.files (package_dir ra pkg.repo ++ [fname])).isSome = true) :
    anyarch_propagate env pkg arch file fname s log = (s, log) := by
  unfold anyarch_propagate ARCHES
  simp only [List.foldl_cons, List.foldl_nil]
  by_cases h1 : "x86_64" = arch
  · rw [if_pos h1]
    by_cases h2 : "aarch64" = arch
    · rw [if_pos h2]
    · rw [if_neg h2]
      simp only [if_pos (hsib "aarch64" (by decide) h2)]
  · rw [if_neg h1]
    simp only [if_pos (hsib "x86_64" (by decide) h1)]
    by_cases h2 : "aarch64" = arch
    · rw [if_pos h2]
    · rw [if_neg h2]
      simp only [if_pos (hsib "aarch64" (by decide) h2)]

theorem try_download_spec (env : CpvEnv) (pkg : CpvPkg) (fn : String) (p : FsPath)
    (h : String) (hd : try_download_package env pkg fn = some (p, h)) :
    ∃ r : RemotePkg, env.remote = some r ∧ p = ["downloads", r.filename] ∧
      (r.filename = fn ∨
        strip_compression_extension r.filename = strip_compression_extension fn) := by
  unfold try_download_package at hd
  cases he : env.remote with
  | none =>
    rw [he] at hd
    cases hd
  | some r =>
    rw [he] at hd
    dsimp only at hd
    refine ⟨r, rfl, ?_⟩
    by_cases h1 : r.version ≠ pkg.version
    · rw [if_pos h1] at hd
      cases hd
    · rw [if_neg h1] at hd
      by_cases h2 : r.filename ≠ fn ∧
          strip_compression_extension r.filename ≠ strip_compression_extension fn
      · rw [if_pos h2] at hd
        cases hd
      · rw [if_neg h2] at hd
        by_cases h3 : r.available = true
        · rw [if_pos h3] at hd
          have hi := Option.some.inj hd
          constructor
          · exact (congrArg Prod.fst hi).symm
          · rcases not_and_or.mp h2 with h4 | h4
            · exact Or.inl (not_not.mp h4)
            · exact Or.inr (not_not.mp h4)
        · rw [if_neg h3] at hd
          cases hd

theorem probe_candidate_true (env : CpvEnv) (pkg : CpvPkg) (arch : String)
    (any_arch td : Bool) (fpath : FsPath) (fn : String) (m : Bool)
    (files : List (FsPath × String)) (o1 : FsPath) (o2 : String)
    (dl : Option (FsPath × String))
    (h : probe_candidate env pkg arch any_arch td fpath fn m files = (o1, o2, true, dl)) :
    dl = none ∧ o2 = fn := by
  unfold probe_candidate at h
  by_cases h1 : (lookupFile files fpath).isSome = true
  · rw [if_pos h1] at h
    simp only [Prod.mk.injEq] at h
    exact ⟨h.2.2.2.symm, h.2.1.symm⟩
  · rw [if_neg h1] at h
    dsimp only at h
    by_cases h2 : (td && (if any_arch = true then
        anyarch_candidate pkg arch fn fpath m files else (fpath, m)).2) = true
    · rw [if_pos h2] at h
      cases hdl : try_download_package env pkg fn with
      | some ph =>
        rw [hdl] at h
        simp at h
      | none =>
        rw [hdl] at h
        simp only [Prod.mk.injEq] at h
        exact ⟨h.2.2.2.symm, h.2.1.symm⟩
    · rw [if_neg h2] at h
      simp only [Prod.mk.injEq] at h
      exact ⟨h.2.2.2.symm, h.2.1.symm⟩

theorem probe_candidate_some (env : CpvEnv) (pkg : CpvPkg) (arch : String)
    (any_arch td : Bool) (fpath : FsPath) (fn : String) (m : Bool)
    (files : List (FsPath × String)) (o1 : FsPath) (o2 : String) (o3 : Bool)
    (ph : FsPath × String)
    (h : probe_candidate env pkg arch any_arch td fpath fn m files =
      (o1, o2, o3, some ph)) :
    o1 = ph.1 ∧ o2 = basename ph.1 ∧ o3 = false ∧
    try_download_package env pkg fn = some ph := by
  unfold probe_candidate at h
  by_cases h1 : (lookupFile files fpath).isSome = true
  · rw [if_pos h1] at h
    simp at h
  · rw [if_neg h1] at h
    dsimp only at h
    by_cases h2 : (td && (if any_arch = true then
        anyarch_candidate pkg arch fn fpath m files else (fpath, m)).2) = true
    · rw [if_pos h2] at h
      cases hdl : try_download_package env pkg fn with
      | some ph2 =>
        rw [hdl] at h
        simp only [Prod.mk.injEq, Option.some.injEq] at h
        obtain ⟨ha, hb, hc, hd⟩ := h
        refine ⟨?_, ?_, hc.symm, ?_⟩
        · rw [← ha, hd]
        · rw [← hb, hd]
        · rw [hd]
      | none =>
        rw [hdl] at h
        simp at h
    · rw [if_neg h2] at h
      simp at h

theorem probe_step_true (env : CpvEnv) (pkg : CpvPkg) (arch stripped : String)
    (any_arch td : Bool) (ext : String) (fn : String) (s : FreshState) (log : CpvLog)
    (f2 : FsPath) (fn2 : String) (s2 : FreshState) (lg2 : CpvLog)
    (h : probe_step env pkg arch stripped any_arch td ext true fn s log =
      .ok (true, f2, fn2, s2, lg2)) :
    s2 = s ∧ lg2 = log ∧ fn2 = fn ∧
    ∀ (t : FreshState) (lg : CpvLog), t.files = s.files →
      probe_step env pkg arch stripped any_arch td ext true fn t lg =
        .ok (true, f2, fn2, t, lg) := by
  rcases hq : probe_candidate env pkg arch any_arch td
      (package_dir arch pkg.repo ++ [stripped ++ "." ++ ext]) fn true s.files
    with ⟨o1, o2, o3, dl⟩
  unfold probe_step at h
  rw [hq] at h
  cases dl with
  | some ph =>
    exfalso
    obtain ⟨ho1, ho2, ho3, hdl⟩ :=
      probe_candidate_some env pkg arch any_arch td _ fn true s.files o1 o2 o3 ph hq
    subst ho3
    dsimp only [apply_download] at h
    split at h
    · split at h
      · simp at h
      · cases h
    · simp at h
  | none =>
    dsimp only [apply_download] at h
    split at h
    · split at h
      · simp at h
      · cases h
    · rename_i hnf
      simp only [Except.ok.injEq, Prod.mk.injEq] at h
      obtain ⟨ho3, hf2, hfn2, hs2, hlg⟩ := h
      subst ho3
      obtain ⟨-, ho2⟩ :=
        probe_candidate_true env pkg arch any_arch td _ fn true s.files o1 o2 none hq
      refine ⟨hs2.symm, hlg.symm, ?_, ?_⟩
      · rw [← hfn2, ho2]
      · intro t lg ht
        unfold probe_step
        rw [ht, hq]
        dsimp only [apply_download]
        rw [if_neg (by rw [ht]; exact hnf)]
        rw [hf2, hfn2]

/-- The `repo-add` contract for the recipe's own artifacts at the build
architecture, per the spec's freshness protocol: the produced DB entry
lists the recipe at its version, with the file's architecture, under
the file's own name, advertised at its location in the channel
directory, with the file's checksum recorded. -/
def RepoAddOk (env : CpvEnv) (pkg : CpvPkg) (arch : String) : Prop :=
  ∀ (p : FsPath) (h : String),
    (env.repoAdd arch pkg.repo p h).version = pkg.version ∧
    ((env.repoAdd arch pkg.repo p h).arch ∈
      (if pkg.arches = ["any"] then ["any"] else [arch])) ∧
    (env.repoAdd arch pkg.repo p h).filename = basename p ∧
    (env.repoAdd arch pkg.repo p h).fileAt =
      some (package_dir arch pkg.repo ++ [basename p]) ∧
    (env.repoAdd arch pkg.repo p h).sha256 = some h

theorem db_check_of_entry (env : CpvEnv) (pkg : CpvPkg) (arch stripped : String)
    (s : FreshState) (E : DbEntry) (fp : FsPath) (h0 : String)
    (hrepo : pkg.repo ∈ env.localRepos)
    (hdb : lookupDb s.db (arch, pkg.repo) = some E)
    (hver : E.version = pkg.version)
    (harch : E.arch ∈ (if pkg.arches = ["any"] then ["any"] else [arch]))
    (hat : E.fileAt = some fp)
    (hfn : strip_compression_extension E.filename = stripped)
    (hfile : lookupFile s.files fp = some h0)
    (hsha : E.sha256 = some h0) :
    db_check env pkg arch stripped s = some (fp, E.filename) := by
  unfold db_check
  rw [if_pos hrepo, hdb]
  dsimp only
  rw [if_neg (fun hc => hc hver), if_neg (not_not_intro harch), hat]
  dsimp only
  rw [if_neg (fun hc => hc hfn.symm), hfile]
  dsimp only
  rw [hsha]
  dsimp only
  rw [if_neg (fun hc => hc rfl)]

theorem probe_candidate_nonany_none (env : CpvEnv) (pkg : CpvPkg) (arch : String)
    (td : Bool) (fpath : FsPath) (fn : String) (m : Bool)
    (files : List (FsPath × String)) (o1 : FsPath) (o2 : String) (o3 : Bool)
    (h : probe_candidate env pkg arch false td fpath fn m files = (o1, o2, o3, none)) :
    o1 = fpath ∧ o2 = fn ∧ o3 = m := by
  unfold probe_candidate at h
  by_cases h1 : (lookupFile files fpath).isSome = true
  · rw [if_pos h1] at h
    simp only [Prod.mk.injEq] at h
    exact ⟨h.1.symm, h.2.1.symm, h.2.2.1.symm⟩
  · rw [if_neg h1] at h
    dsimp only at h
    by_cases h2 : (td && (if (false : Bool) = true then
        anyarch_candidate pkg arch fn fpath m files else (fpath, m)).2) = true
    · rw [if_pos h2] at h
      cases hdl : try_download_package env pkg fn with
      | some ph =>
        rw [hdl] at h
        simp at h
      | none =>
        rw [hdl] at h
        simp only [Prod.mk.injEq] at h
        exact ⟨h.1.symm, h.2.1.symm, h.2.2.1.symm⟩
    · rw [if_neg h2] at h
      simp only [Prod.mk.injEq] at h
      exact ⟨h.1.symm, h.2.1.symm, h.2.2.1.symm⟩

theorem probe_step_success (env : CpvEnv) (pkg : CpvPkg) (arch stripped filename : String)
    (td : Bool) (ext : String)
    (hstr : strEndsWith stripped ".pkg.tar" = true)
    (hfil : strip_compression_extension filename = stripped)
    (hra : RepoAddOk env pkg arch)
    (hext : ext = "xz" ∨ ext = "zst")
    (s : FreshState) (log : CpvLog) (f2 : FsPath) (fn2 : String)
    (s2 : FreshState) (log2 : CpvLog)
    (h : probe_step env pkg arch stripped false td ext true filename s log =
      .ok (false, f2, fn2, s2, log2)) :
    (∃ fp fnx, db_check env pkg arch stripped s2 = some (fp, fnx)) ∧
    arch ∈ s2.prebuilt ∧
    s2.srcChanged = s.srcChanged ∧ s2.srcInit = s.srcInit ∧ s2.srcOk = s.srcOk := by
  have hstem : strip_compression_extension (stripped ++ "." ++ ext) = stripped := by
    rcases hext with he | he <;> rw [he]
    · exact strip_stem_xz stripped hstr
    · exact strip_stem_zst stripped hstr
  rcases hq : probe_candidate env pkg arch false td
      (package_dir arch pkg.repo ++ [stripped ++ "." ++ ext]) filename true s.files
    with ⟨o1, o2, o3, dl⟩
  unfold probe_step at h
  rw [hq] at h
  cases dl with
  | none =>
    obtain ⟨ho1, ho2, ho3⟩ :=
      probe_candidate_nonany_none env pkg arch td _ filename true s.files o1 o2 o3 hq
    subst ho1
    subst ho2
    subst ho3
    dsimp only [apply_download] at h
    split at h
    · rename_i hex
      split at h
      · rename_i hrepo
        simp only [Except.ok.injEq, Prod.mk.injEq] at h
        obtain ⟨-, -, -, hs2, -⟩ := h
        obtain ⟨h0, hh0⟩ := Option.isSome_iff_exists.mp hex
        have hbn : basename (package_dir arch pkg.repo ++ [stripped ++ "." ++ ext]) =
            stripped ++ "." ++ ext := basename_append_one _ _
        obtain ⟨a1, a2, a3, a4, a5, a6⟩ :=
          add_file_spec env s log (package_dir arch pkg.repo ++ [stripped ++ "." ++ ext])
            pkg.repo arch h0 hh0
        rw [hbn] at a1 a2
        obtain ⟨r1, r2, r3, r4, r5⟩ :=
          hra (package_dir arch pkg.repo ++ [stripped ++ "." ++ ext]) h0
        rw [hbn] at r3 r4
        subst hs2
        refine ⟨⟨package_dir arch pkg.repo ++ [stripped ++ "." ++ ext], _,
          db_check_of_entry env pkg arch stripped _ _ _ h0 hrepo a1 r1 r2 ?_ ?_ a2 r5⟩,
          a3, a4, a5, a6⟩
        · rw [r4]
        · rw [r3, hstem]
      · cases h
    · simp at h
  | some ph =>
    obtain ⟨ho1, ho2, ho3, hdl⟩ :=
      probe_candidate_some env pkg arch false td _ filename true s.files o1 o2 o3 ph hq
    subst ho1
    subst ho2
    subst ho3
    dsimp only [apply_download] at h
    obtain ⟨r, hr, hp1, hfny⟩ := try_download_spec env pkg filename ph.1 ph.2 hdl
    have hexd : (lookupFile (alistSet s.files ph.1 ph.2) ph.1).isSome = true := by
      show (alistGet _ _).isSome = true
      rw [alistGet_alistSet, if_pos rfl]
      rfl
    rw [if_pos hexd] at h
    split at h
    · rename_i hrepo
      simp only [Except.ok.injEq, Prod.mk.injEq] at h
      obtain ⟨-, -, -, hs2, -⟩ := h
      have hexd2 : lookupFile (alistSet s.files ph.1 ph.2) ph.1 = some ph.2 := by
        show alistGet _ _ = _
        rw [alistGet_alistSet, if_pos rfl]
      have hbnd : basename ph.1 = r.filename := by
        rw [hp1]
        exact basename_append_one ["downloads"] r.filename
      obtain ⟨a1, a2, a3, a4, a5, a6⟩ :=
        add_file_spec env { s with files := alistSet s.files ph.1 ph.2 }
          { log with writes := log.writes + 1 } ph.1 pkg.repo arch ph.2 hexd2
      obtain ⟨r1, r2, r3, r4, r5⟩ :=
        hra (package_dir arch pkg.repo ++ [basename ph.1]) ph.2
      rw [basename_append_one] at r3 r4
      subst hs2
      refine ⟨⟨package_dir arch pkg.repo ++ [basename ph.1], _,
        db_check_of_entry env pkg arch stripped _ _ _ ph.2 hrepo a1 r1 r2 ?_ ?_ a2 r5⟩,
        a3, by rw [a4], by rw [a5], by rw [a6]⟩
      · rw [r4]
      · rw [r3, hbnd]
        rcases hfny with hfe | hfe
        · rw [hfe, hfil]
        · rw [hfe, hfil]
    · cases h

theorem probe_fail_spec (env : CpvEnv) (pkg : CpvPkg) (arch stripped : String)
    (any_arch td : Bool) :
    ∀ (exts : List String) (fn fn2 : String) (f f2 : FsPath)
      (s s2 : FreshState) (log log2 : CpvLog),
      probe_exts env pkg arch stripped any_arch td exts true f fn s log =
        .ok (true, f2, fn2, s2, log2) →
      s2 = s ∧ log2 = log ∧ fn2 = fn ∧
      ∀ (t : FreshState) (lg : CpvLog), t.files = s.files →
        probe_exts env pkg arch stripped any_arch td exts true f fn t lg =
          .ok (true, f2, fn2, t, lg) := by
  intro exts
  induction exts with
  | nil =>
    intro fn fn2 f f2 s s2 log log2 h
    simp only [probe_exts, Except.ok.injEq, Prod.mk.injEq, true_and] at h
    obtain ⟨hfx, hfnx, hsx, hlx⟩ := h
    refine ⟨hsx.symm, hlx.symm, hfnx.symm, ?_⟩
    intro t lg ht
    simp only [probe_exts]
    rw [hfx, hfnx]
  | cons e rest ih =>
    intro fn fn2 f f2 s s2 log log2 h
    unfold probe_exts at h
    rw [if_neg (by simp : ¬ (true = false))] at h
    cases hstep : probe_step env pkg arch stripped any_arch td e true fn s log with
    | error e2 =>
      rw [hstep] at h
      cases h
    | ok q =>
      obtain ⟨m2, f2x, fn2x, s2x, log2x⟩ := q
      rw [hstep] at h
      dsimp only at h
      cases m2 with
      | false =>
        rw [probe_exts_break] at h
        simp at h
      | true =>
        obtain ⟨hsx, hlx, hfnx, hrep⟩ :=
          probe_step_true env pkg arch stripped any_arch td e fn s log f2x fn2x s2x
            log2x hstep
        rw [hsx, hlx, hfnx] at h
        obtain ⟨hs2, hl2, hfn2, hrep2⟩ := ih fn fn2 f2x f2 s s2 log log2 h
        refine ⟨hs2, hl2, hfn2, ?_⟩
        intro t lg ht
        unfold probe_exts
        rw [if_neg (by simp : ¬ (true = false)), hrep t lg ht]
        dsimp only
        rw [hfnx]
        exact hrep2 t lg ht

theorem probe_success_spec (env : CpvEnv) (pkg : CpvPkg) (arch stripped filename : String)
    (td : Bool)
    (hstr : strEndsWith stripped ".pkg.tar" = true)
    (hfil : strip_compression_extension filename = stripped)
    (hra : RepoAddOk env pkg arch) :
    ∀ (exts : List String) (f f2 : FsPath) (fn2 : String)
      (s s2 : FreshState) (log log2 : CpvLog),
      (∀ e ∈ exts, e = "xz" ∨ e = "zst") →
      probe_exts env pkg arch stripped false td exts true f filename s log =
        .ok (false, f2, fn2, s2, log2) →
      (∃ fp fnx, db_check env pkg arch stripped s2 = some (fp, fnx)) ∧
      arch ∈ s2.prebuilt ∧
      s2.srcChanged = s.srcChanged ∧ s2.srcInit = s.srcInit ∧ s2.srcOk = s.srcOk := by
  intro exts
  induction exts with
  | nil =>
    intro f f2 fn2 s s2 log log2 hexts h
    simp only [probe_exts] at h
    simp at h
  | cons e rest ih =>
    intro f f2 fn2 s s2 log log2 hexts h
    unfold probe_exts at h
    rw [if_neg (by simp : ¬ (true = false))] at h
    cases hstep : probe_step env pkg arch stripped false td e true filename s log with
    | error e2 =>
      rw [hstep] at h
      cases h
    | ok q =>
      obtain ⟨m2, f2x, fn2x, s2x, log2x⟩ := q
      rw [hstep] at h
      dsimp only at h
      cases m2 with
      | false =>
        rw [probe_exts_break] at h
        simp only [Except.ok.injEq, Prod.mk.injEq] at h
        obtain ⟨-, -, -, hs2, -⟩ := h
        subst hs2
        exact probe_step_success env pkg arch stripped filename td e hstr hfil hra
          (hexts e (List.mem_cons_self _ _)) s log f2x fn2x s2x log2x hstep
      | true =>
        obtain ⟨hsx, hlx, hfnx, -⟩ :=
          probe_step_true env pkg arch stripped false td e filename s log f2x fn2x s2x
            log2x hstep
        rw [hsx, hlx, hfnx] at h
        exact ih f2x f2 fn2 s s2 log log2
          (fun x hx => hexts x (List.mem_cons_of_mem _ hx)) h

theorem cpv_steady (env : CpvEnv) (pkg : CpvPkg) (arch : String) (td : Bool)
    (s : FreshState) (fp : FsPath) (fn : String)
    (hpre : arch ∈ s.prebuilt)
    (hdb : db_check env pkg arch
      (strip_compression_extension (get_filename pkg arch)) s = some (fp, fn))
    (hsib : strEndsWith (strip_compression_extension (get_filename pkg arch))
        "any.pkg.tar" = true →
      ∀ ra ∈ ARCHES, ra ≠ arch →
        (lookupFile s.files (package_dir ra pkg.repo ++ [fn])).isSome = true) :
    check_package_version_built env pkg arch td false s = .ok (true, s, ⟨0, 0⟩) := by
  unfold check_package_version_built
  dsimp only
  rw [if_neg (show ¬ ((false : Bool) = true) by decide)]
  dsimp only
  rw [if_neg (by rw [stripped_ends pkg arch]; exact fun hc => absurd hc (by decide)),
    if_pos hpre, hdb]
  dsimp only
  rw [probe_exts_break]
  dsimp only
  by_cases hany : strEndsWith (strip_compression_extension (get_filename pkg arch))
      "any.pkg.tar" = true
  · rw [if_pos ⟨hany, rfl⟩]
    rw [anyarch_noop env pkg arch fp fn s ⟨0, 0⟩ (hsib hany)]
    rfl
  · rw [if_neg (fun hc => hany hc.1)]
    rfl

theorem cpv_false_noop (env : CpvEnv) (pkg : CpvPkg) (arch : String) (td : Bool)
    (s s1 : FreshState) (log1 : CpvLog)
    (h : check_package_version_built env pkg arch td false s = .ok (false, s1, log1)) :
    check_package_version_built env pkg arch td false s1 = .ok (false, s1, ⟨0, 0⟩) := by
  unfold check_package_version_built at h
  dsimp only at h
  rw [if_neg (show ¬ ((false : Bool) = true) by decide)] at h
  dsimp only at h
  by_cases hg : strEndsWith (strip_compression_extension (get_filename pkg arch))
      ".pkg.tar" = false
  · rw [if_pos hg] at h
    cases h
  · rw [if_neg hg] at h
    by_cases hpb : arch ∈ s.prebuilt
    · rw [if_pos hpb] at h
      dsimp only at h
      cases hdbc : db_check env pkg arch
          (strip_compression_extension (get_filename pkg arch)) s with
      | some q =>
        rw [hdbc] at h
        dsimp only at h
        rw [probe_exts_break] at h
        dsimp only at h
        simp at h
      | none =>
        rw [hdbc] at h
        dsimp only at h
        cases hpr : probe_exts env pkg arch
            (strip_compression_extension (get_filename pkg arch))
            (strEndsWith (strip_compression_extension (get_filename pkg arch)) "any.pkg.tar")
            td ["xz", "zst"] true [] (get_filename pkg arch) s ⟨0, 0⟩ with
        | error e2 =>
          rw [hpr] at h
          cases h
        | ok q =>
          obtain ⟨m, f2, fn2, s2, log2⟩ := q
          rw [hpr] at h
          dsimp only at h
          cases m with
          | false => simp at h
          | true =>
            rw [if_neg (fun hc => absurd hc.2 (by decide))] at h
            simp only [Except.ok.injEq, Prod.mk.injEq] at h
            obtain ⟨-, hs1, hlog1⟩ := h
            obtain ⟨hs2, hl2, hfn2, hrep⟩ :=
              probe_fail_spec env pkg arch
                (strip_compression_extension (get_filename pkg arch))
                (strEndsWith (strip_compression_extension (get_filename pkg arch))
                  "any.pkg.tar") td ["xz", "zst"] (get_filename pkg arch) fn2 [] f2
                s s2 ⟨0, 0⟩ log2 hpr
            have hs1s : s1 = s := by rw [← hs1, hs2]
            subst hs1s
            unfold check_package_version_built
            dsimp only
            rw [if_neg (show ¬ ((false : Bool) = true) by decide)]
            dsimp only
            rw [if_neg hg, if_pos hpb, hdbc]
            dsimp only
            rw [hrep s1 ⟨0, 0⟩ rfl]
            dsimp only
            rw [if_neg (fun hc => absurd hc.2 (by decide))]
            rfl
    · rw [if_neg hpb] at h
      dsimp only at h
      cases hdbc : db_check env pkg arch
          (strip_compression_extension (get_filename pkg arch))
          { db := s.db, files := s.files, prebuilt := arch :: s.prebuilt,
            srcChanged := s.srcChanged, srcInit := s.srcInit, srcOk := s.srcOk } with
      | some q =>
        rw [hdbc] at h
        dsimp only at h
        rw [probe_exts_break] at h
        dsimp only at h
        simp at h
      | none =>
        rw [hdbc] at h
        dsimp only at h
        cases hpr : probe_exts env pkg arch
            (strip_compression_extension (get_filename pkg arch))
            (strEndsWith (strip_compression_extension (get_filename pkg arch)) "any.pkg.tar")
            td ["xz", "zst"] true [] (get_filename pkg arch)
            { db := s.db, files := s.files, prebuilt := arch :: s.prebuilt,
              srcChanged := s.srcChanged, srcInit := s.srcInit, srcOk := s.srcOk }
            ⟨0 + 1, 0⟩ with
        | error e2 =>
          rw [hpr] at h
          cases h
        | ok q =>
          obtain ⟨m, f2, fn2, s2, log2⟩ := q
          rw [hpr] at h
          dsimp only at h
          cases m with
          | false => simp at h
          | true =>
            rw [if_neg (fun hc => absurd hc.2 (by decide))] at h
            simp only [Except.ok.injEq, Prod.mk.injEq] at h
            obtain ⟨-, hs1, hlog1⟩ := h
            obtain ⟨hs2, hl2, hfn2, hrep⟩ :=
              probe_fail_spec env pkg arch
                (strip_compression_extension (get_filename pkg arch))
                (strEndsWith (strip_compression_extension (get_filename pkg arch))
                  "any.pkg.tar") td ["xz", "zst"] (get_filename pkg arch) fn2 [] f2
                _ s2 ⟨0 + 1, 0⟩ log2 hpr
            have hs1s : s1 =
                { db := s.db, files := s.files, prebuilt := arch :: s.prebuilt,
                  srcChanged := s.srcChanged, srcInit := s.srcInit, srcOk := s.srcOk } := by
              rw [← hs1, hs2]
            subst hs1s
            unfold check_package_version_built
            dsimp only
            rw [if_neg (show ¬ ((false : Bool) = true) by decide)]
            dsimp only
            rw [if_neg hg, if_pos (List.mem_cons_self arch s.prebuilt), hdbc]
            dsimp only
            rw [hrep _ ⟨0, 0⟩ rfl]
            dsimp only
            rw [if_neg (fun hc => absurd hc.2 (by decide))]
            rfl

theorem cpv_nonany_idem (env : CpvEnv) (pkg : CpvPkg) (arch : String) (td : Bool)
    (s s1 : FreshState) (b : Bool) (log1 : CpvLog)
    (hra : RepoAddOk env pkg arch)
    (hany : strEndsWith (strip_compression_extension (get_filename pkg arch))
      "any.pkg.tar" = false)
    (h : check_package_version_built env pkg arch td false s = .ok (b, s1, log1)) :
    check_package_version_built env pkg arch td false s1 = .ok (b, s1, ⟨0, 0⟩) := by
  cases b with
  | false => exact cpv_false_noop env pkg arch td s s1 log1 h
  | true =>
    have hnotany : ¬ strEndsWith (strip_compression_extension (get_filename pkg arch))
        "any.pkg.tar" = true := by
      rw [hany]
      decide
    unfold check_package_version_built at h
    dsimp only at h
    rw [if_neg (show ¬ ((false : Bool) = true) by decide)] at h
    dsimp only at h
    by_cases hg : strEndsWith (strip_compression_extension (get_filename pkg arch))
        ".pkg.tar" = false
    · rw [if_pos hg] at h
      cases h
    · rw [if_neg hg, hany] at h
      by_cases hpb : arch ∈ s.prebuilt
      · rw [if_pos hpb] at h
        dsimp only at h
        cases hdbc : db_check env pkg arch
            (strip_compression_extension (get_filename pkg arch)) s with
        | some q =>
          obtain ⟨fp, fn⟩ := q
          rw [hdbc] at h
          dsimp only at h
          rw [probe_exts_break] at h
          dsimp only at h
          rw [if_neg (fun hc => absurd hc.1 (by decide))] at h
          simp only [Except.ok.injEq, Prod.mk.injEq] at h
          obtain ⟨-, hs1, hlog1⟩ := h
          have hs1s : s1 = s := hs1.symm
          subst hs1s
          exact cpv_steady env pkg arch td s1 fp fn hpb hdbc
            (fun hc => absurd hc hnotany)
        | none =>
          rw [hdbc] at h
          dsimp only at h
          cases hpr : probe_exts env pkg arch
              (strip_compression_extension (get_filename pkg arch)) false
              td ["xz", "zst"] true [] (get_filename pkg arch) s ⟨0, 0⟩ with
          | error e2 =>
            rw [hpr] at h
            cases h
          | ok q =>
            obtain ⟨m, f2, fn2, s2, log2⟩ := q
            rw [hpr] at h
            dsimp only at h
            cases m with
            | true =>
              rw [if_neg (fun hc => absurd hc.1 (by decide))] at h
              simp at h
            | false =>
              rw [if_neg (fun hc => absurd hc.1 (by decide))] at h
              simp only [Except.ok.injEq, Prod.mk.injEq] at h
              obtain ⟨-, hs1, hlog1⟩ := h
              obtain ⟨⟨fp, fnx, hdb2⟩, hpre2, -, -, -⟩ :=
                probe_success_spec env pkg arch
                  (strip_compression_extension (get_filename pkg arch))
                  (get_filename pkg arch) td (stripped_ends pkg arch) rfl hra
                  ["xz", "zst"] [] f2 fn2 s s2 ⟨0, 0⟩ log2 (by decide) hpr
              have hs1s : s1 = s2 := hs1.symm
              subst hs1s
              exact cpv_steady env pkg arch td s1 fp fnx hpre2 hdb2
                (fun hc => absurd hc hnotany)
      · rw [if_neg hpb] at h
        dsimp only at h
        cases hdbc : db_check env pkg arch
            (strip_compression_extension (get_filename pkg arch))
            { db := s.db, files := s.files, prebuilt := arch :: s.prebuilt,
              srcChanged := s.srcChanged, srcInit := s.srcInit, srcOk := s.srcOk } with
        | some q =>
          obtain ⟨fp, fn⟩ := q
          rw [hdbc] at h
          dsimp only at h
          rw [probe_exts_break] at h
          dsimp only at h
          rw [if_neg (fun hc => absurd hc.1 (by decide))] at h
          simp only [Except.ok.injEq, Prod.mk.injEq] at h
          obtain ⟨-, hs1, hlog1⟩ := h
          have hs1s : s1 =
              { db := s.db, files := s.files, prebuilt := arch :: s.prebuilt,
                srcChanged := s.srcChanged, srcInit := s.srcInit, srcOk := s.srcOk } :=
            hs1.symm
          subst hs1s
          exact cpv_steady env pkg arch td _ fp fn (List.mem_cons_self arch s.prebuilt)
            hdbc (fun hc => absurd hc hnotany)
        | none =>
          rw [hdbc] at h
          dsimp only at h
          cases hpr : probe_exts env pkg arch
              (strip_compression_extension (get_filename pkg arch)) false
              td ["xz", "zst"] true [] (get_filename pkg arch)
              { db := s.db, files := s.files, prebuilt := arch :: s.prebuilt,
                srcChanged := s.srcChanged, srcInit := s.srcInit, srcOk := s.srcOk }
              ⟨0 + 1, 0⟩ with
          | error e2 =>
            rw [hpr] at h
            cases h
          | ok q =>
            obtain ⟨m, f2, fn2, s2, log2⟩ := q
            rw [hpr] at h
            dsimp only at h
            cases m with
            | true =>
              rw [if_neg (fun hc => absurd hc.1 (by decide))] at h
              simp at h
            | false =>
              rw [if_neg (fun hc => absurd hc.1 (by decide))] at h
              simp only [Except.ok.injEq, Prod.mk.injEq] at h
              obtain ⟨-, hs1, hlog1⟩ := h
              obtain ⟨⟨fp, fnx, hdb2⟩, hpre2, -, -, -⟩ :=
                probe_success_spec env pkg arch
                  (strip_compression_extension (get_filename pkg arch))
                  (get_filename pkg arch) td (stripped_ends pkg arch) rfl hra
                  ["xz", "zst"] [] f2 fn2 _ s2 ⟨0 + 1, 0⟩ log2 (by decide) hpr
              have hs1s : s1 = s2 := hs1.symm
              subst hs1s
              exact cpv_steady env pkg arch td s1 fp fnx hpre2 hdb2
                (fun hc => absurd hc hnotany)

/-- C7 (amended): with `refresh_sources=false` the freshness check is
idempotent in the following precise sense.  (1) From a steady state —
repo skeleton initialised, local DB attesting the recipe (matching
version, admissible architecture, matching stripped filename, the
advertised file on disk with the recorded checksum) and, for an
`any`-arch recipe, the sibling-arch copies present under the DB
filename — a call is a complete no-op: it returns true with zero
filesystem writes, zero subprocess invocations and an unchanged state.
(2) A call that returns false modifies nothing beyond initialising the
repo skeleton, and a second call returns false again with zero writes
and subprocesses and an unchanged state.  (3) For a non-`any`-arch
recipe, assuming the `repo-add` contract, a second call returns the
same boolean as the first with the state unchanged and zero writes and
subprocesses.  (The original claim's quantification over every flag
value fails — see the counterexample: with `refresh_sources=true` the
source setup re-runs on every call; and for `any`-arch recipes the
second call may still copy files across sibling arch channels.) -/
theorem c7_theorem :
    (∀ (env : CpvEnv) (pkg : CpvPkg) (arch : String) (td : Bool) (s : FreshState)
        (fp : FsPath) (fn : String),
        arch ∈ s.prebuilt →
        db_check env pkg arch (strip_compression_extension (get_filename pkg arch)) s =
          some (fp, fn) →
        (strEndsWith (strip_compression_extension (get_filename pkg arch))
            "any.pkg.tar" = true →
          ∀ ra ∈ ARCHES, ra ≠ arch →
            (lookupFile s.files (package_dir ra pkg.repo ++ [fn])).isSome = true) →
        check_package_version_built env pkg arch td false s = .ok (true, s, ⟨0, 0⟩)) ∧
    (∀ (env : CpvEnv) (pkg : CpvPkg) (arch : String) (td : Bool)
        (s s1 : FreshState) (log1 : CpvLog),
        check_package_version_built env pkg arch td false s = .ok (false, s1, log1) →
        check_package_version_built env pkg arch td false s1 = .ok (false, s1, ⟨0, 0⟩)) ∧
    (∀ (env : CpvEnv) (pkg : CpvPkg) (arch : String) (td : Bool)
        (s s1 : FreshState) (b : Bool) (log1 : CpvLog),
        RepoAddOk env pkg arch →
        strEndsWith (strip_compression_extension (get_filename pkg arch))
          "any.pkg.tar" = false →
        check_package_version_built env pkg arch td false s = .ok (b, s1, log1) →
        check_package_version_built env pkg arch td false s1 = .ok (b, s1, ⟨0, 0⟩)) :=
  ⟨cpv_steady, cpv_false_noop, cpv_nonany_idem⟩

def c7xEnv : CpvEnv :=
  { localRepos := ["main"],
    repoAdd := fun _ _ _ _ => ⟨"", "", "", none, none⟩,
    remote := none }

def c7xPkg : CpvPkg := ⟨"pkg", "1-1", "main", ["aarch64"]⟩

def c7xEntry : DbEntry :=
  ⟨"1-1", "aarch64", "pkg-1-1-aarch64.pkg.tar.zst",
   some ["packages", "aarch64", "main", "pkg-1-1-aarch64.pkg.tar.zst"], some "H1"⟩

/-- A fully built state whose in-memory srcinfo cache is flagged changed
(as every cache regenerated during discovery is: `_changed` is never
reset after a write). -/
def c7xState : FreshState :=
  { db := [(("aarch64", "main"), c7xEntry)],
    files := [(["packages", "aarch64", "main", "pkg-1-1-aarch64.pkg.tar.zst"], "H1")],
    prebuilt := ["aarch64"],
    srcChanged := true, srcInit := true, srcOk := true }

/-- Counterexample to C7 as stated: with `refresh_sources=true` on a
fully built package whose srcinfo cache is flagged changed in memory,
the call returns true and leaves the state identical to the input — so
a second call is this very computation — yet every such call performs
three filesystem writes (source re-setup, SRCINFO/checksum rewrite,
`src_initialised` stamp) and one subprocess invocation, contradicting
`performs no filesystem modifications`. -/
theorem c7_counterexample :
    check_package_version_built c7xEnv c7xPkg "aarch64" false true c7xState =
      .ok (true, c7xState, ⟨3, 1⟩) ∧
    (⟨3, 1⟩ : CpvLog).writes ≠ 0 ∧ (⟨3, 1⟩ : CpvLog).subprocs ≠ 0 :=
  ⟨rfl, by decide, by decide⟩

def c7wEnv : CpvEnv :=
  { localRepos := ["main"],
    repoAdd := fun a rn p h =>
      ⟨"1-1", a, basename p, some (package_dir a rn ++ [basename p]), some h⟩,
    remote := none }

def c7wPkg : CpvPkg := ⟨"pkg", "1-1", "main", ["x86_64"]⟩

/-- Initial state: empty DB, the package file present only as an `.xz`
in the channel directory, repo skeleton not yet initialised. -/
def c7wState0 : FreshState :=
  { db := [],
    files := [(["packages", "x86_64", "main", "pkg-1-1-x86_64.pkg.tar.xz"], "H1")],
    prebuilt := [], srcChanged := false, srcInit := false, srcOk := false }

/-- State after the first call: the file was re-inserted into the DB. -/
def c7wState1 : FreshState :=
  { db := [(("x86_64", "main"),
      ⟨"1-1", "x86_64", "pkg-1-1-x86_64.pkg.tar.xz",
       some ["packages", "x86_64", "main", "pkg-1-1-x86_64.pkg.tar.xz"], some "H1"⟩)],
    files := [(["packages", "x86_64", "main", "pkg-1-1-x86_64.pkg.tar.xz"], "H1")],
    prebuilt := ["x86_64"], srcChanged := false, srcInit := false, srcOk := false }

/-- Witness for C7: the non-`any` idempotence clause at a concrete run —
the first call repairs the DB from the on-disk `.xz` file (two writes,
one `repo-add`), and the second call from the resulting state returns
the same boolean with zero writes and subprocesses and the state
unchanged. -/
theorem c7_witness :
    check_package_version_built c7wEnv c7wPkg "x86_64" false false c7wState1 =
      .ok (true, c7wState1, ⟨0, 0⟩) :=
  c7_theorem.2.2 c7wEnv c7wPkg "x86_64" false c7wState0 c7wState1 true ⟨2, 1⟩
    (fun p h => ⟨rfl, by simp [c7wEnv, c7wPkg], rfl, rfl, rfl⟩)
    (by decide) rfl

end Kupfer
